import Mathlib

/-!
# Wayland input translation layer (client/Wayland/wlf_input.c)

A shallow embedding of the input handlers of the Wayland client: the wheel
quantizer, the axis frame coalescer, the button translator, the focus
synchronisation of the keyboard translator and the touch contact tracker.

Conventions of the embedding:

* C integers are `Nat` (unsigned) or `Int` (signed); a cast to `UINT16` is
  written `% 65536`.
* A pointer that may be `NULL` is an `Option` (or a `Bool` saying whether the
  handle is there, when nothing is read through it).
* The external collaborators (coordinate scaler, wire send primitives, touch
  channel) are not part of the sources.  Every call to one of them is recorded
  in a `World`; what the call returns is read from an `Env` of oracles, indexed
  by the number of earlier calls, so that every pattern of successes and
  failures of a run is some `Env`.
* A handler result is `Option Bool`: `some b` is the returned `BOOL`, `none`
  says that the call did not return because a `WINPR_ASSERT` failed or a `NULL`
  pointer was read.
-/

namespace WlfInput

/-! ## Constants of headers that are not part of the sources -/

/-- Modelled from the spec: the horizontal wheel bit of the pointer flags
(`PTR_FLAGS_HWHEEL` of freerdp/input.h, the axis orientation bit). -/
def PTR_FLAGS_HWHEEL : Nat := 0x0400

/-- Modelled from the spec: the bit saying that a mouse event is a wheel event
(`PTR_FLAGS_WHEEL` of freerdp/input.h). -/
def PTR_FLAGS_WHEEL : Nat := 0x0200

/-- Modelled from the spec: the negative direction bit of a wheel event
(`PTR_FLAGS_WHEEL_NEGATIVE` of freerdp/input.h). -/
def PTR_FLAGS_WHEEL_NEGATIVE : Nat := 0x0100

/-- Modelled from the spec: the move bit of the pointer flags
(`PTR_FLAGS_MOVE` of freerdp/input.h). -/
def PTR_FLAGS_MOVE : Nat := 0x0800

/-- Modelled from the spec: the press bit of the primary button class
(`PTR_FLAGS_DOWN` of freerdp/input.h). -/
def PTR_FLAGS_DOWN : Nat := 0x8000

/-- Modelled from the spec: the left button flag (`PTR_FLAGS_BUTTON1`). -/
def PTR_FLAGS_BUTTON1 : Nat := 0x1000

/-- Modelled from the spec: the right button flag (`PTR_FLAGS_BUTTON2`). -/
def PTR_FLAGS_BUTTON2 : Nat := 0x2000

/-- Modelled from the spec: the middle button flag (`PTR_FLAGS_BUTTON3`). -/
def PTR_FLAGS_BUTTON3 : Nat := 0x4000

/-- Modelled from the spec: the press bit of the extended button class
(`PTR_XFLAGS_DOWN` of freerdp/input.h). -/
def PTR_XFLAGS_DOWN : Nat := 0x8000

/-- Modelled from the spec: the first extended button flag
(`PTR_XFLAGS_BUTTON1`). -/
def PTR_XFLAGS_BUTTON1 : Nat := 0x0001

/-- Modelled from the spec: the second extended button flag
(`PTR_XFLAGS_BUTTON2`). -/
def PTR_XFLAGS_BUTTON2 : Nat := 0x0002

/-- Modelled from the spec: the num lock bit of the lock-state bitmask
(`KBD_SYNC_NUM_LOCK` of freerdp/input.h). -/
def KBD_SYNC_NUM_LOCK : Nat := 0x0002

/-- Modelled from the spec: the caps lock bit of the lock-state bitmask
(`KBD_SYNC_CAPS_LOCK` of freerdp/input.h). -/
def KBD_SYNC_CAPS_LOCK : Nat := 0x0004

/-- Modelled from the spec: the caps modifier mask of the windowing toolkit
(`UWAC_MOD_CAPS_MASK` of uwac/uwac.h). -/
def UWAC_MOD_CAPS_MASK : Nat := 0x08

/-- Modelled from the spec: the num modifier mask of the windowing toolkit
(`UWAC_MOD_NUM_MASK` of uwac/uwac.h). -/
def UWAC_MOD_NUM_MASK : Nat := 0x10

/-- Modelled from the spec: the vertical scroll axis of the Wayland protocol
(`WL_POINTER_AXIS_VERTICAL_SCROLL`). -/
def WL_POINTER_AXIS_VERTICAL_SCROLL : Nat := 0

/-- Modelled from the spec: the horizontal scroll axis of the Wayland protocol
(`WL_POINTER_AXIS_HORIZONTAL_SCROLL`). -/
def WL_POINTER_AXIS_HORIZONTAL_SCROLL : Nat := 1

/-- Modelled from the spec: the wheel axis source of the Wayland protocol. -/
def WL_POINTER_AXIS_SOURCE_WHEEL : Nat := 0

/-- Modelled from the spec: the finger axis source of the Wayland protocol. -/
def WL_POINTER_AXIS_SOURCE_FINGER : Nat := 1

/-- Modelled from the spec: the continuous axis source of the Wayland
protocol. -/
def WL_POINTER_AXIS_SOURCE_CONTINUOUS : Nat := 2

/-- Modelled from the spec: the wheel tilt axis source of the Wayland
protocol. -/
def WL_POINTER_AXIS_SOURCE_WHEEL_TILT : Nat := 3

/-- Modelled from the spec: pressed state of a pointer button
(`WL_POINTER_BUTTON_STATE_PRESSED`). -/
def WL_POINTER_BUTTON_STATE_PRESSED : Nat := 1

/-- Modelled from the spec: the left button code of linux/input.h. -/
def BTN_LEFT : Nat := 0x110

/-- Modelled from the spec: the right button code of linux/input.h. -/
def BTN_RIGHT : Nat := 0x111

/-- Modelled from the spec: the middle button code of linux/input.h. -/
def BTN_MIDDLE : Nat := 0x112

/-- Modelled from the spec: the side button code of linux/input.h. -/
def BTN_SIDE : Nat := 0x113

/-- Modelled from the spec: the extra button code of linux/input.h. -/
def BTN_EXTRA : Nat := 0x114

/-- The largest `UINT16`. -/
def UINT16_MAX : Nat := 0xFFFF

/-- The largest `int32_t`. -/
def INT32_MAX : Nat := 0x7FFFFFFF

/-! ## Data model -/

/-- The type tag of a toolkit event.  Only the tags the handlers compare with
are told apart; every other tag is `UWAC_EVENT_OTHER`. -/
inductive UwacEventType where
  | UWAC_EVENT_POINTER_AXIS
  | UWAC_EVENT_POINTER_AXIS_DISCRETE
  | UWAC_EVENT_POINTER_FRAME
  | UWAC_EVENT_POINTER_SOURCE
  | UWAC_EVENT_OTHER
  deriving DecidableEq, Repr

/-- A buffered toolkit event (`UwacEvent`, a C union).  The fields of the two
members the frame handler reads are kept side by side: `x`, `y`, `axis`,
`value` of `mouse_axis` and `axis_source` of `mouse_source`. -/
structure UwacEvent where
  type : UwacEventType
  x : Nat
  y : Nat
  axis : Nat
  value : Int
  axis_source : Nat
  deriving DecidableEq, Repr

/-- The frame marker event (`UwacPointerFrameEvent`); only its tag is read. -/
structure UwacPointerFrameEvent where
  type : UwacEventType
  deriving DecidableEq, Repr

/-- A pointer button event (`UwacPointerButtonEvent`). -/
structure UwacPointerButtonEvent where
  x : Nat
  y : Nat
  button : Nat
  state : Nat
  deriving DecidableEq, Repr

/-- A modifier notification (`UwacKeyboardModifiersEvent`). -/
structure UwacKeyboardModifiersEvent where
  modifiers : Nat
  deriving DecidableEq, Repr

/-- A touch event (`UwacTouchDown`, `UwacTouchMotion`; `UwacTouchUp` reads the
id only). -/
structure UwacTouch where
  id : Int
  x : Int
  y : Int
  deriving DecidableEq, Repr

/-- One slot of the contact table (`touchContact`).  The positions are C
doubles that only ever receive `int32_t` values, which a double holds exactly;
they are kept as integers, so that `fabs (pos_x - x) < DBL_EPSILON` is
`pos_x = x` and the cast back to `int32_t` is the identity. -/
structure touchContact where
  id : Int
  pos_x : Int
  pos_y : Int
  emulate_mouse : Bool
  deriving DecidableEq, Repr

/-- The client context (`wlfContext`), as far as the input handlers use it.
`contacts` has `MAX_CONTACTS` slots: the capacity is the length of the list.
`rdpei` says whether the touch channel pointer is not `NULL`. -/
structure wlfContext where
  events : List (Option UwacEvent)
  focusing : Bool
  contacts : List touchContact
  rdpei : Bool
  deriving DecidableEq, Repr

/-- The instance (`freerdp`): `input` says whether `instance->input` is not
`NULL`, `context` is `instance->context`. -/
structure freerdp where
  input : Bool
  context : Option wlfContext
  deriving DecidableEq, Repr

/-- The capacity of the contact table of a context. -/
def MAX_CONTACTS (wlf : wlfContext) : Nat := wlf.contacts.length

/-! ## External collaborators -/

/-- A call of one of the wire send primitives, with its arguments. -/
inductive WireEvent where
  | mouse (flags x y : Nat)
  | extended_mouse (flags x y : Nat)
  | focus_in (toggleStates : Nat)
  deriving DecidableEq, Repr

/-- A call forwarded to the touch channel, with its arguments. -/
inductive TouchCall where
  | TouchBegin (id x y : Int)
  | TouchUpdate (id x y : Int)
  | TouchEnd (id x y : Int)
  deriving DecidableEq, Repr

/-- The trace of the calls made to the collaborators: the number of scaling
calls, the wire sends in order and the touch channel calls in order. -/
structure World where
  nscale : Nat
  wire : List WireEvent
  touch : List TouchCall
  deriving DecidableEq, Repr

/-- The trace before any call. -/
def World.start : World := ⟨0, [], []⟩

/-- The oracles of the collaborators: `scale k x y` is what the scaling call
number `k` returns on `(x, y)` (the `BOOL` and the two values written back),
`sendOk k` is what the wire send number `k` returns. -/
structure Env where
  scale : Nat → Nat → Nat → Bool × Nat × Nat
  sendOk : Nat → Bool

/-- The coordinate scaler `wlf_scale_coordinates (context, &x, &y, TRUE)`. -/
def wlf_scale_coordinates (env : Env) (x y : Nat) (w : World) :
    Bool × Nat × Nat × World :=
  let r := env.scale w.nscale x y
  (r.1, r.2.1, r.2.2, { w with nscale := w.nscale + 1 })

/-- The primitive `freerdp_input_send_mouse_event (input, flags, x, y)`: the
call is recorded with its flags and position, and its result is the one of the
oracle (the handle passed is whatever `instance->input` is). -/
def freerdp_input_send_mouse_event (env : Env) (flags x y : Nat) (w : World) :
    Bool × World :=
  (env.sendOk w.wire.length, { w with wire := w.wire ++ [WireEvent.mouse flags x y] })

/-- The primitive `freerdp_input_send_extended_mouse_event`. -/
def freerdp_input_send_extended_mouse_event (env : Env) (flags x y : Nat)
    (w : World) : Bool × World :=
  (env.sendOk w.wire.length,
    { w with wire := w.wire ++ [WireEvent.extended_mouse flags x y] })

/-- The primitive `freerdp_input_send_focus_in_event (input, toggleStates)`. -/
def freerdp_input_send_focus_in_event (env : Env) (toggleStates : Nat)
    (w : World) : Bool × World :=
  (env.sendOk w.wire.length,
    { w with wire := w.wire ++ [WireEvent.focus_in toggleStates] })

/-- The result of a handler call: the returned `BOOL` (`none` when the call
did not return), the instance after the call and the trace after the call. -/
structure Result where
  rc : Option Bool
  inst : Option freerdp
  world : World
  deriving DecidableEq, Repr

/-! ## Wheel quantizer -/

/-- The chunk the loop of `wlf_handle_wheel` cuts from the remaining magnitude:
`(avalue > 0xFF) ? 0xFF : (UINT16)avalue`. -/
def wheel_cval (avalue : Nat) : Nat :=
  if avalue > 0xFF then 0xFF else avalue % 65536

/-- The flags of the mouse event sent for one chunk: `flags | cval`, replaced
by `(flags & 0xFF00) | (0x100 - cval)` when the negative bit is set. -/
def wheel_cflags (flags cval : Nat) : Nat :=
  if flags &&& PTR_FLAGS_WHEEL_NEGATIVE ≠ 0
  then (flags &&& 0xFF00) ||| (0x100 - cval)
  else flags ||| cval

/-- The `while (avalue > 0)` loop of `wlf_handle_wheel`: one mouse event per
chunk, at the scaled position cast to `UINT16`; `false` as soon as a send
fails. -/
def wheel_loop (env : Env) (flags x y : Nat) (avalue : Nat) (w : World) :
    Bool × World :=
  if _h : avalue > 0 then
    let cval := wheel_cval avalue
    let cflags := wheel_cflags flags cval
    let r := freerdp_input_send_mouse_event env cflags (x % 65536) (y % 65536) w
    if r.1 = false then (false, r.2)
    else wheel_loop env flags x y (avalue - cval) r.2
  else (true, w)
termination_by avalue
decreasing_by
  unfold wheel_cval
  split <;> omega

/-- The `switch (axis)` of `wlf_handle_wheel`: the base flags of the axis, with
the negative bit for a positive vertical or a negative horizontal direction;
`none` in the `default` case, where the function returns `FALSE`. -/
def wheel_flags (axis : Nat) (direction : Int) : Option Nat :=
  if axis = WL_POINTER_AXIS_VERTICAL_SCROLL then
    some (PTR_FLAGS_WHEEL ||| (if direction > 0 then PTR_FLAGS_WHEEL_NEGATIVE else 0))
  else if axis = WL_POINTER_AXIS_HORIZONTAL_SCROLL then
    some (PTR_FLAGS_HWHEEL ||| (if direction < 0 then PTR_FLAGS_WHEEL_NEGATIVE else 0))
  else none

/-- The static function `wlf_handle_wheel (instance, x, y, axis, value)`.
`abs (value)` is `Int.natAbs`; the two `WINPR_ASSERT`s are on the instance and
on its input handle. -/
def wlf_handle_wheel (env : Env) (inst : Option freerdp) (x y axis : Nat)
    (value : Int) (w : World) : Option Bool × World :=
  let avalue := value.natAbs
  match inst with
  | none => (none, w)
  | some i =>
    if i.input = false then (none, w)
    else
      let s := wlf_scale_coordinates env x y w
      if s.1 = false then (some false, s.2.2.2)
      else
        let direction := value
        match wheel_flags axis direction with
        | none => (some false, s.2.2.2)
        | some flags =>
          let r := wheel_loop env flags s.2.1 s.2.2.1 avalue s.2.2.2
          (some r.1, r.2)

/-! ## Axis frame coalescer -/

/-- The value of a C `int` computation stored in an `int32_t`. -/
def wrap32 (z : Int) : Int := (z + 2 ^ 31) % 2 ^ 32 - 2 ^ 31

/-- The conversion `wl_fixed_to_double` of a 24.8 fixed-point number, as an
exact rational.  The doubles of `dval * 0x78 / 10.0` are modelled by rationals
without loss: for a 32-bit `v` the values `v / 256`, `120 * v / 256` and the
quotient `3 * v / 64` are dyadic numbers of fewer than 53 significant bits, so
every double operation of the expression is exact. -/
def wl_fixed_to_double (f : Int) : ℚ := (f : ℚ) / 256

/-- The cast `(int32_t) d` of a double: truncation toward zero. -/
def double_to_int32 (d : ℚ) : Int := Int.tdiv d.num d.den

/-- The first loop of `wlf_handle_pointer_frame`: `handle` and `source` after
scanning the buffer, a later source entry overwriting an earlier one. -/
def frame_scan : List (Option UwacEvent) → Bool × Nat → Bool × Nat
  | [], hs => hs
  | none :: rest, hs => frame_scan rest hs
  | some cev :: rest, hs =>
    if cev.type = UwacEventType.UWAC_EVENT_POINTER_SOURCE
    then frame_scan rest (true, cev.axis_source)
    else frame_scan rest hs

/-- The second loop of `wlf_handle_pointer_frame`: the replay of the buffer
under the resolved `source`.  The wheel branch tests the tag of the frame event
`ev`, the finger and continuous branch tests the tag of the buffered entry
`cev`, as the source does.  The wheel tilt case, compiled in when the protocol
header declares it, is part of the model.  A `NULL` item of the list is
skipped. -/
def frame_replay (env : Env) (i : freerdp) (ev : UwacPointerFrameEvent)
    (source : Nat) : List (Option UwacEvent) → Bool → World → Option Bool × World
  | [], success, w => (some success, w)
  | none :: rest, success, w => frame_replay env i ev source rest success w
  | some cev :: rest, success, w =>
    if source = WL_POINTER_AXIS_SOURCE_WHEEL ∨
        source = WL_POINTER_AXIS_SOURCE_WHEEL_TILT then
      if ev.type = UwacEventType.UWAC_EVENT_POINTER_AXIS_DISCRETE then
        let val := wrap32 (cev.value * 0x78)
        let r := wlf_handle_wheel env (some i) cev.x cev.y cev.axis val w
        match r.1 with
        | none => (none, r.2)
        | some true => frame_replay env i ev source rest success r.2
        | some false => frame_replay env i ev source rest false r.2
      else frame_replay env i ev source rest success w
    else if source = WL_POINTER_AXIS_SOURCE_FINGER ∨
        source = WL_POINTER_AXIS_SOURCE_CONTINUOUS then
      if cev.type = UwacEventType.UWAC_EVENT_POINTER_AXIS then
        let dval := wl_fixed_to_double cev.value
        let val := double_to_int32 (dval * 0x78 / 10)
        let r := wlf_handle_wheel env (some i) cev.x cev.y cev.axis val w
        match r.1 with
        | none => (none, r.2)
        | some true => frame_replay env i ev source rest success r.2
        | some false => frame_replay env i ev source rest false r.2
      else frame_replay env i ev source rest success w
    else frame_replay env i ev source rest success w

/-- The handler `wlf_handle_pointer_frame (instance, ev)`. -/
def wlf_handle_pointer_frame (env : Env) (inst : Option freerdp)
    (ev : Option UwacPointerFrameEvent) (w : World) : Result :=
  match inst, ev with
  | some i, some e =>
    if i.input = false then ⟨some false, inst, w⟩
    else
      match i.context with
      | none => ⟨some false, inst, w⟩
      | some context =>
        let hs := frame_scan context.events (false, WL_POINTER_AXIS_SOURCE_CONTINUOUS)
        let r := if hs.1 = true
          then frame_replay env i e hs.2 context.events true w
          else (some true, w)
        ⟨r.1, some { i with context := some { context with events := [] } }, r.2⟩
  | _, _ => ⟨some false, inst, w⟩

/-! ## Button translator -/

/-- The handler `wlf_handle_pointer_buttons (instance, ev)`. -/
def wlf_handle_pointer_buttons (env : Env) (inst : Option freerdp)
    (ev : Option UwacPointerButtonEvent) (w : World) : Result :=
  match inst, ev with
  | some i, some e =>
    if i.input = false then ⟨some false, inst, w⟩
    else
      let s := wlf_scale_coordinates env e.x e.y w
      if s.1 = false then ⟨some false, inst, s.2.2.2⟩
      else
        let x := s.2.1
        let y := s.2.2.1
        let w1 := s.2.2.2
        let flags := if e.state = WL_POINTER_BUTTON_STATE_PRESSED then PTR_FLAGS_DOWN else 0
        let xflags := if e.state = WL_POINTER_BUTTON_STATE_PRESSED then PTR_XFLAGS_DOWN else 0
        let known := e.button = BTN_LEFT ∨ e.button = BTN_RIGHT ∨ e.button = BTN_MIDDLE ∨
          e.button = BTN_SIDE ∨ e.button = BTN_EXTRA
        if ¬ known then ⟨some true, inst, w1⟩
        else
          let flags := if e.button = BTN_LEFT then flags ||| PTR_FLAGS_BUTTON1
            else if e.button = BTN_RIGHT then flags ||| PTR_FLAGS_BUTTON2
            else if e.button = BTN_MIDDLE then flags ||| PTR_FLAGS_BUTTON3
            else flags
          let xflags := if e.button = BTN_SIDE then xflags ||| PTR_XFLAGS_BUTTON1
            else if e.button = BTN_EXTRA then xflags ||| PTR_XFLAGS_BUTTON2
            else xflags
          if ¬ (x ≤ UINT16_MAX ∧ y ≤ UINT16_MAX) then ⟨none, inst, w1⟩
          else if flags &&& (0xFFFF - PTR_FLAGS_DOWN) ≠ 0 then
            let r := freerdp_input_send_mouse_event env flags (x % 65536) (y % 65536) w1
            ⟨some r.1, inst, r.2⟩
          else if xflags &&& (0xFFFF - PTR_XFLAGS_DOWN) ≠ 0 then
            let r := freerdp_input_send_extended_mouse_event env xflags (x % 65536) (y % 65536) w1
            ⟨some r.1, inst, r.2⟩
          else ⟨some false, inst, w1⟩
  | _, _ => ⟨some false, inst, w⟩

/-! ## Keyboard focus synchronisation -/

/-- The instance after the focus-pending flag of its context `wlf` was
written. -/
def set_focusing (i : freerdp) (wlf : wlfContext) (focusing : Bool) : freerdp :=
  { i with context := some { wlf with focusing := focusing } }

/-- The handler `wlf_keyboard_enter (instance, ev)`; `ev` says whether the
event pointer is not `NULL`.  The context is read without a `NULL` check. -/
def wlf_keyboard_enter (inst : Option freerdp) (ev : Bool) (w : World) : Result :=
  match inst with
  | some i =>
    if ev = false ∨ i.input = false then ⟨some false, inst, w⟩
    else
      match i.context with
      | none => ⟨none, inst, w⟩
      | some wlf =>
        ⟨some true, some (set_focusing i wlf true), w⟩
  | none => ⟨some false, inst, w⟩

/-- The handler `wlf_keyboard_modifiers (instance, ev)`.  The two sends are
joined by `&&`: the mouse event is sent only when the focus-in send
succeeded. -/
def wlf_keyboard_modifiers (env : Env) (inst : Option freerdp)
    (ev : Option UwacKeyboardModifiersEvent) (w : World) : Result :=
  match inst, ev with
  | some i, some e =>
    if i.input = false then ⟨some false, inst, w⟩
    else
      let syncFlags := 0
      let syncFlags := if e.modifiers &&& UWAC_MOD_CAPS_MASK ≠ 0
        then syncFlags ||| KBD_SYNC_CAPS_LOCK else syncFlags
      let syncFlags := if e.modifiers &&& UWAC_MOD_NUM_MASK ≠ 0
        then syncFlags ||| KBD_SYNC_NUM_LOCK else syncFlags
      match i.context with
      | none => ⟨none, inst, w⟩
      | some wlf =>
        if wlf.focusing = false then ⟨some true, inst, w⟩
        else
          let inst1 := some (set_focusing i wlf false)
          let r1 := freerdp_input_send_focus_in_event env syncFlags w
          if r1.1 = false then ⟨some false, inst1, r1.2⟩
          else
            let r2 := freerdp_input_send_mouse_event env PTR_FLAGS_MOVE 0 0 r1.2
            ⟨some r2.1, inst1, r2.2⟩
  | _, _ => ⟨some false, inst, w⟩

/-! ## Touch contact tracker -/

/-- The static function `scale_signed_coordinates (context, &x, &y, TRUE)`:
`none` when one of its `WINPR_ASSERT`s fails, otherwise the `BOOL` of the
scaler and the scaled values. -/
def scale_signed_coordinates (env : Env) (x y : Int) (w : World) :
    Option (Bool × Int × Int) × World :=
  if x < 0 ∨ y < 0 then (none, w)
  else
    let s := wlf_scale_coordinates env x.toNat y.toNat w
    if s.2.1 < INT32_MAX ∧ s.2.2.1 < INT32_MAX
    then (some (s.1, (s.2.1 : Int), (s.2.2.1 : Int)), s.2.2.2)
    else (none, s.2.2.2)

/-- The index at which a `for (i = 0; i < MAX_CONTACTS; i++)` loop breaks: the
lowest index of a slot satisfying `p`; `none` when the loop runs to
`MAX_CONTACTS`. -/
def first_slot (p : touchContact → Bool) : List touchContact → Option Nat
  | [] => none
  | c :: cs => if p c = true then some 0 else (first_slot p cs).map (· + 1)

/-- The slot `wlf->contacts[i]`. -/
def slot (contacts : List touchContact) (i : Nat) : touchContact :=
  contacts.getD i ⟨0, 0, 0, false⟩

/-- The instance after the slots of the contact table of its context `wlf` were
written in place. -/
def set_contacts (i : freerdp) (wlf : wlfContext) (contacts : List touchContact) :
    freerdp :=
  { i with context := some { wlf with contacts := contacts } }

/-- The handler `wlf_handle_touch_up (instance, ev)`. -/
def wlf_handle_touch_up (env : Env) (inst : Option freerdp) (ev : Option UwacTouch)
    (w : World) : Result :=
  match inst, ev with
  | some i, some e =>
    match i.context with
    | none => ⟨some false, inst, w⟩
    | some wlf =>
      let touchId := e.id
      match first_slot (fun c => decide (c.id = touchId)) wlf.contacts with
      | none => ⟨some false, inst, w⟩
      | some k =>
        let contact := slot wlf.contacts k
        let inst1 := some (set_contacts i wlf (wlf.contacts.set k { contact with id := 0 }))
        let s := scale_signed_coordinates env contact.pos_x contact.pos_y w
        match s.1 with
        | none => ⟨none, inst1, s.2⟩
        | some (rc, x, y) =>
          if rc = false then ⟨some false, inst1, s.2⟩
          else if contact.emulate_mouse = true then
            if ¬ (x ≤ UINT16_MAX ∧ y ≤ UINT16_MAX) then ⟨none, inst1, s.2⟩
            else
              let r := freerdp_input_send_mouse_event env PTR_FLAGS_BUTTON1
                (x.toNat % 65536) (y.toNat % 65536) s.2
              ⟨some r.1, inst1, r.2⟩
          else if wlf.rdpei = false then ⟨some false, inst1, s.2⟩
          else
            ⟨some true, inst1,
              { s.2 with touch := s.2.touch ++ [TouchCall.TouchEnd touchId x y] }⟩
  | _, _ => ⟨some false, inst, w⟩

/-- The handler `wlf_handle_touch_down (instance, ev)`. -/
def wlf_handle_touch_down (env : Env) (inst : Option freerdp) (ev : Option UwacTouch)
    (w : World) : Result :=
  match inst, ev with
  | some i, some e =>
    match i.context with
    | none => ⟨some false, inst, w⟩
    | some wlf =>
      let touchId := e.id
      match first_slot (fun c => decide (c.id = 0)) wlf.contacts with
      | none => ⟨some false, inst, w⟩
      | some k =>
        let contact : touchContact := ⟨touchId, e.x, e.y, false⟩
        let inst1 := some (set_contacts i wlf (wlf.contacts.set k contact))
        let s := scale_signed_coordinates env e.x e.y w
        match s.1 with
        | none => ⟨none, inst1, s.2⟩
        | some (rc, x, y) =>
          if rc = false then ⟨some false, inst1, s.2⟩
          else if wlf.rdpei = false then
            let inst2 := some (set_contacts i wlf
              (wlf.contacts.set k { contact with emulate_mouse := true }))
            if ¬ (x ≤ UINT16_MAX ∧ y ≤ UINT16_MAX) then ⟨none, inst2, s.2⟩
            else
              let r := freerdp_input_send_mouse_event env
                (PTR_FLAGS_DOWN ||| PTR_FLAGS_MOVE ||| PTR_FLAGS_BUTTON1)
                (x.toNat % 65536) (y.toNat % 65536) s.2
              ⟨some r.1, inst2, r.2⟩
          else
            ⟨some true, inst1,
              { s.2 with touch := s.2.touch ++ [TouchCall.TouchBegin touchId x y] }⟩
  | _, _ => ⟨some false, inst, w⟩

/-- The handler `wlf_handle_touch_motion (instance, ev)`. -/
def wlf_handle_touch_motion (env : Env) (inst : Option freerdp) (ev : Option UwacTouch)
    (w : World) : Result :=
  match inst, ev with
  | some i, some e =>
    match i.context with
    | none => ⟨some false, inst, w⟩
    | some wlf =>
      let touchId := e.id
      match first_slot (fun c => decide (c.id = touchId)) wlf.contacts with
      | none => ⟨some false, inst, w⟩
      | some k =>
        let contact := slot wlf.contacts k
        if contact.pos_x = e.x ∧ contact.pos_y = e.y then ⟨some true, inst, w⟩
        else
          let inst1 := some (set_contacts i wlf
            (wlf.contacts.set k { contact with pos_x := e.x, pos_y := e.y }))
          let s := scale_signed_coordinates env e.x e.y w
          match s.1 with
          | none => ⟨none, inst1, s.2⟩
          | some (rc, x, y) =>
            if rc = false then ⟨some false, inst1, s.2⟩
            else if contact.emulate_mouse = true then
              if ¬ (x ≤ UINT16_MAX ∧ y ≤ UINT16_MAX) then ⟨none, inst1, s.2⟩
              else
                let r := freerdp_input_send_mouse_event env PTR_FLAGS_MOVE
                  (x.toNat % 65536) (y.toNat % 65536) s.2
                ⟨some r.1, inst1, r.2⟩
            else if wlf.rdpei = false then ⟨some false, inst1, s.2⟩
            else
              ⟨some true, inst1,
                { s.2 with touch := s.2.touch ++ [TouchCall.TouchUpdate touchId x y] }⟩
  | _, _ => ⟨some false, inst, w⟩

/-! ## Definitions used to state the properties -/

/-- The chunks in the order in which the loop of `wlf_handle_wheel` cuts them
from a magnitude. -/
def wheel_chunks (avalue : Nat) : List Nat :=
  if _h : avalue > 0
  then wheel_cval avalue :: wheel_chunks (avalue - wheel_cval avalue)
  else []
termination_by avalue
decreasing_by
  unfold wheel_cval
  split <;> omega

/-- The mouse events of a list of flags, all at one position. -/
def mouse_events (x y : Nat) (fs : List Nat) : List WireEvent :=
  fs.map (fun f => WireEvent.mouse f x y)

/-- The chunks of a positive magnitude `v` in the words of the specification:
`ceil (v / 255) - 1` chunks of 255, then the rest
`v - 255 * (ceil (v / 255) - 1)`. -/
def spec_chunks (v : Nat) : List Nat :=
  List.replicate ((v + 254) / 255 - 1) 255 ++ [v - 255 * ((v + 254) / 255 - 1)]

/-- The low 9 bits of the flags of a wire event read as a 9-bit twos
complement number, in the words of the specification. -/
def decode9 (flags : Nat) : Int :=
  if flags &&& 0x1FF < 0x100 then ((flags &&& 0x1FF : Nat) : Int)
  else ((flags &&& 0x1FF : Nat) : Int) - 0x200

/-- The identity scaler, and sends that all succeed. -/
def envId : Env := ⟨fun _ x y => (true, x, y), fun _ => true⟩

/-- A buffered source entry declaring the wheel source. -/
def sourceWheel : UwacEvent :=
  ⟨UwacEventType.UWAC_EVENT_POINTER_SOURCE, 0, 0, 0, 0, WL_POINTER_AXIS_SOURCE_WHEEL⟩

/-- A buffered discrete-step entry of value 2 on the vertical axis, at
`(10, 20)`. -/
def discreteTwo : UwacEvent :=
  ⟨UwacEventType.UWAC_EVENT_POINTER_AXIS_DISCRETE, 10, 20,
    WL_POINTER_AXIS_VERTICAL_SCROLL, 2, 0⟩

/-- The frame marker event, carrying the frame tag. -/
def frameMarker : UwacPointerFrameEvent := ⟨UwacEventType.UWAC_EVENT_POINTER_FRAME⟩

/-- An instance with all handles present, an empty contact table, no touch
channel and the given axis event buffer. -/
def instWithEvents (events : List (Option UwacEvent)) : freerdp :=
  ⟨true, some ⟨events, false, [], false⟩⟩

/-- The contact table of an instance (empty when there is no instance or no
context). -/
def contacts_of (inst : Option freerdp) : List touchContact :=
  match inst with
  | some i =>
    match i.context with
    | some wlf => wlf.contacts
    | none => []
  | none => []

/-- The ids of the slots of a contact table, in slot order. -/
def slot_ids (contacts : List touchContact) : List Int :=
  contacts.map touchContact.id

/-- The uniqueness invariant of the contact table: no two slots hold the same
non-zero id. -/
def unique_ids (contacts : List touchContact) : Prop :=
  ((slot_ids contacts).filter (fun t => decide (t ≠ 0))).Nodup

instance (contacts : List touchContact) : Decidable (unique_ids contacts) := by
  unfold unique_ids
  infer_instance

/-- The value `wlf_handle_touch_down` leaves in the `emulate_mouse` flag of the
slot it populates: the slot is written with `FALSE`, and `TRUE` is stored only
after `scale_signed_coordinates` returned `TRUE`, when the touch channel is
absent. -/
def touch_down_emulate (env : Env) (wlf : wlfContext) (e : UwacTouch) (w : World) : Bool :=
  match (scale_signed_coordinates env e.x e.y w).1 with
  | some (true, _, _) => !wlf.rdpei
  | _ => false

/-- An instance with the touch channel present whose table holds the id 5 in
slot 0 and has slot 1 free. -/
def instOneContact : freerdp :=
  ⟨true, some ⟨[], false, [⟨5, 1, 1, false⟩, ⟨0, 0, 0, false⟩], true⟩⟩

/-- An instance with the touch channel present whose two slots are free. -/
def instAllFree : freerdp :=
  ⟨true, some ⟨[], false, [⟨0, 0, 0, false⟩, ⟨0, 0, 0, false⟩], true⟩⟩

/-- An instance with the touch channel present whose two slots hold the ids 1
and 2. -/
def instFull : freerdp :=
  ⟨true, some ⟨[], false, [⟨1, 3, 4, false⟩, ⟨2, 5, 6, false⟩], true⟩⟩

/-- A touch event with the id 0, at the origin. -/
def touchZero : UwacTouch := ⟨0, 0, 0⟩

/-- An instance without touch channel whose two slots are free. -/
def instNoChannel : freerdp :=
  ⟨true, some ⟨[], false, [⟨0, 0, 0, false⟩, ⟨0, 0, 0, false⟩], false⟩⟩

/-- A scaler that always fails (leaving the values as they are), and sends
that all succeed. -/
def envScaleFails : Env := ⟨fun _ x y => (false, x, y), fun _ => true⟩

/-- The identity scaler, and sends that all fail. -/
def envSendFails : Env := ⟨fun _ x y => (true, x, y), fun _ => false⟩

/-- The instance after `ArrayList_Clear` on the axis event buffer of its
context. -/
def clear_events (i : freerdp) (context : wlfContext) : freerdp :=
  { i with context := some { context with events := [] } }

/-- The axis event buffer of an instance (empty when there is no instance or
no context). -/
def events_of (inst : Option freerdp) : List (Option UwacEvent) :=
  match inst with
  | some i =>
    match i.context with
    | some context => context.events
    | none => []
  | none => []

/-- An instance with all handles present, an empty buffer and an empty
table. -/
def instPlain : freerdp := ⟨true, some ⟨[], false, [], false⟩⟩

/-- The instance whose context `context` holds the given axis event buffer. -/
def with_events (i : freerdp) (context : wlfContext) (events : List (Option UwacEvent)) :
    freerdp :=
  { i with context := some { context with events := events } }

/-- The arguments of one call of the wheel quantizer: position, axis and
delta. -/
structure WheelCall where
  x : Nat
  y : Nat
  axis : Nat
  value : Int
  deriving DecidableEq, Repr

/-- The calls of `wlf_handle_wheel` the second loop of the frame handler makes
under the resolved `source`, in buffer order. -/
def frame_calls (ev : UwacPointerFrameEvent) (source : Nat) :
    List (Option UwacEvent) → List WheelCall
  | [] => []
  | none :: rest => frame_calls ev source rest
  | some cev :: rest =>
    if source = WL_POINTER_AXIS_SOURCE_WHEEL ∨
        source = WL_POINTER_AXIS_SOURCE_WHEEL_TILT then
      if ev.type = UwacEventType.UWAC_EVENT_POINTER_AXIS_DISCRETE then
        ⟨cev.x, cev.y, cev.axis, wrap32 (cev.value * 0x78)⟩ :: frame_calls ev source rest
      else frame_calls ev source rest
    else if source = WL_POINTER_AXIS_SOURCE_FINGER ∨
        source = WL_POINTER_AXIS_SOURCE_CONTINUOUS then
      if cev.type = UwacEventType.UWAC_EVENT_POINTER_AXIS then
        ⟨cev.x, cev.y, cev.axis, double_to_int32 (wl_fixed_to_double cev.value * 0x78 / 10)⟩
          :: frame_calls ev source rest
      else frame_calls ev source rest
    else frame_calls ev source rest

/-- The calls of `wlf_handle_wheel` made by a frame end call on a buffer: none
when the first loop finds no source entry, otherwise the calls of the replay
under the source the first loop resolves. -/
def frame_wheel_calls (ev : UwacPointerFrameEvent) (events : List (Option UwacEvent)) :
    List WheelCall :=
  if (frame_scan events (false, WL_POINTER_AXIS_SOURCE_CONTINUOUS)).1 = true
  then frame_calls ev (frame_scan events (false, WL_POINTER_AXIS_SOURCE_CONTINUOUS)).2 events
  else []

/-- The calls of a list made one after the other, each on the trace the
previous one left: the results in order and the final trace. -/
def run_wheel_calls (env : Env) (i : freerdp) : List WheelCall → World →
    List (Option Bool) × World
  | [], w => ([], w)
  | c :: cs, w =>
    let r := wlf_handle_wheel env (some i) c.x c.y c.axis c.value w
    let rest := run_wheel_calls env i cs r.2
    (r.1 :: rest.1, rest.2)

/-- The calls of the wheel quantizer for a finger or continuous source in the
words of the specification: one call per continuous axis entry, on its own
position and axis, with the delta `3 * v / 64` truncated toward zero, where `v`
is the raw 24.8 fixed-point value of the entry. -/
def continuous_calls (events : List (Option UwacEvent)) : List WheelCall :=
  events.filterMap (fun o =>
    match o with
    | some cev =>
      if cev.type = UwacEventType.UWAC_EVENT_POINTER_AXIS
      then some ⟨cev.x, cev.y, cev.axis, Int.tdiv (3 * cev.value) 64⟩
      else none
    | none => none)

/-- A buffered entry with its declared axis source erased. -/
def forget_source (o : Option UwacEvent) : Option UwacEvent :=
  o.map (fun cev => { cev with axis_source := 0 })

/-- A buffered source entry declaring the continuous source. -/
def sourceContinuous : UwacEvent :=
  ⟨UwacEventType.UWAC_EVENT_POINTER_SOURCE, 0, 0, 0, 0, WL_POINTER_AXIS_SOURCE_CONTINUOUS⟩

/-- A buffered source entry declaring the finger source. -/
def sourceFinger : UwacEvent :=
  ⟨UwacEventType.UWAC_EVENT_POINTER_SOURCE, 0, 0, 0, 0, WL_POINTER_AXIS_SOURCE_FINGER⟩

/-- A buffered continuous axis entry of raw value 2560 (ten units) on the
vertical axis, at `(10, 20)`. -/
def axisTen : UwacEvent :=
  ⟨UwacEventType.UWAC_EVENT_POINTER_AXIS, 10, 20, WL_POINTER_AXIS_VERTICAL_SCROLL, 2560, 0⟩

/-- A buffered continuous axis entry of raw value 21 on the vertical axis, at
`(10, 20)`. -/
def axisSmall : UwacEvent :=
  ⟨UwacEventType.UWAC_EVENT_POINTER_AXIS, 10, 20, WL_POINTER_AXIS_VERTICAL_SCROLL, 21, 0⟩

/-- An instance with the touch channel present whose slot 0 holds the id 5 in
emulated mode (it was created while the channel was absent) and whose slot 1
is free. -/
def instEmulatedContact : freerdp :=
  ⟨true, some ⟨[], false, [⟨5, 1, 1, true⟩, ⟨0, 0, 0, false⟩], true⟩⟩

/-! ## Properties of the wheel quantizer -/

/-- The chunk cut from a positive magnitude is positive. -/
theorem wheel_cval_pos {a : Nat} (h : 0 < a) : 0 < wheel_cval a := by
  unfold wheel_cval
  split <;> omega

/-- The chunk is at most the remaining magnitude and at most 255. -/
theorem wheel_cval_le (a : Nat) : wheel_cval a ≤ a ∧ wheel_cval a ≤ 255 := by
  unfold wheel_cval
  split <;> omega

/-- The magnitude zero has no chunk. -/
theorem wheel_chunks_zero : wheel_chunks 0 = [] := by
  rw [wheel_chunks]; simp

/-- A positive magnitude yields its first chunk, then the chunks of the rest. -/
theorem wheel_chunks_pos {a : Nat} (h : 0 < a) :
    wheel_chunks a = wheel_cval a :: wheel_chunks (a - wheel_cval a) := by
  rw [wheel_chunks]; simp [h]

/-- Every chunk is between 1 and 255. -/
theorem wheel_chunks_bounds (a : Nat) : ∀ c ∈ wheel_chunks a, 1 ≤ c ∧ c ≤ 255 := by
  induction a using Nat.strong_induction_on with
  | _ a ih =>
    rcases Nat.eq_zero_or_pos a with h0 | hpos
    · subst h0; simp [wheel_chunks_zero]
    · rw [wheel_chunks_pos hpos]
      intro c hc
      rcases List.mem_cons.mp hc with rfl | hc
      · exact ⟨wheel_cval_pos hpos, (wheel_cval_le a).2⟩
      · exact ih _ (by have := wheel_cval_pos hpos; have := wheel_cval_le a; omega) c hc

/-- The chunks add up to the magnitude: nothing is truncated. -/
theorem wheel_chunks_sum (a : Nat) : (wheel_chunks a).sum = a := by
  induction a using Nat.strong_induction_on with
  | _ a ih =>
    rcases Nat.eq_zero_or_pos a with h0 | hpos
    · subst h0; simp [wheel_chunks_zero]
    · rw [wheel_chunks_pos hpos, List.sum_cons,
        ih _ (by have := wheel_cval_pos hpos; have := wheel_cval_le a; omega)]
      have := wheel_cval_le a
      omega

/-- The chunks of the loop are the chunks the specification describes. -/
theorem wheel_chunks_eq_spec (v : Nat) (h : 0 < v) : wheel_chunks v = spec_chunks v := by
  induction v using Nat.strong_induction_on with
  | _ v ih =>
    rw [wheel_chunks_pos h]
    by_cases hbig : v > 255
    · have hc : wheel_cval v = 255 := by unfold wheel_cval; simp [hbig]
      rw [hc, ih (v - 255) (by omega) (by omega)]
      unfold spec_chunks
      have e1 : (v + 254) / 255 - 1 = ((v - 255 + 254) / 255 - 1) + 1 := by omega
      rw [e1, List.replicate_succ, List.cons_append]
      have e2 : v - 255 * ((v - 255 + 254) / 255 - 1 + 1)
          = v - 255 - 255 * ((v - 255 + 254) / 255 - 1) := by omega
      rw [e2]
    · have hc : wheel_cval v = v := by unfold wheel_cval; simp [hbig]; omega
      rw [hc, Nat.sub_self, wheel_chunks_zero]
      unfold spec_chunks
      have e1 : (v + 254) / 255 - 1 = 0 := by omega
      rw [e1]; simp

/-- When every send succeeds the loop sends one mouse event per chunk, in
order, and returns `true`. -/
theorem wheel_loop_all_ok (env : Env) (flags x y : Nat)
    (hsend : ∀ k, env.sendOk k = true) (a : Nat) (w : World) :
    wheel_loop env flags x y a w =
      (true, ⟨w.nscale, w.wire ++ mouse_events (x % 65536) (y % 65536)
        ((wheel_chunks a).map (wheel_cflags flags)), w.touch⟩) := by
  induction a using Nat.strong_induction_on generalizing w with
  | _ a ih =>
    rcases Nat.eq_zero_or_pos a with h0 | hpos
    · subst h0
      rw [wheel_loop, wheel_chunks_zero]
      simp [mouse_events]
    · rw [wheel_loop, wheel_chunks_pos hpos]
      have hlt : a - wheel_cval a < a := by
        have := wheel_cval_pos hpos; have := wheel_cval_le a; omega
      simp only [hpos, dite_true, freerdp_input_send_mouse_event, hsend]
      rw [if_neg (by simp), ih _ hlt]
      simp [mouse_events]

/-- With the input handle present, the scaler and every send succeeding and a
valid axis, `wlf_handle_wheel` returns `TRUE` after one mouse event per chunk
of the magnitude, at the scaled position cast to `UINT16`. -/
theorem wlf_handle_wheel_all_ok (env : Env) (i : freerdp) (x y axis : Nat) (v : Int)
    (w : World) (flags : Nat) (hin : i.input = true)
    (hscale : (env.scale w.nscale x y).1 = true)
    (hsend : ∀ k, env.sendOk k = true) (hflags : wheel_flags axis v = some flags) :
    wlf_handle_wheel env (some i) x y axis v w =
      (some true, ⟨w.nscale + 1, w.wire ++ mouse_events
        ((env.scale w.nscale x y).2.1 % 65536) ((env.scale w.nscale x y).2.2 % 65536)
        ((wheel_chunks v.natAbs).map (wheel_cflags flags)), w.touch⟩) := by
  simp only [wlf_handle_wheel, wlf_scale_coordinates, hin, hscale, hflags,
    wheel_loop_all_ok env flags _ _ hsend]
  simp

/-- The flags of a chunk under the vertical base flags with the negative
bit. -/
theorem wheel_cflags_negative_vertical :
    ∀ c, c < 256 → 1 ≤ c →
      wheel_cflags (PTR_FLAGS_WHEEL ||| PTR_FLAGS_WHEEL_NEGATIVE) c
        = PTR_FLAGS_WHEEL ||| PTR_FLAGS_WHEEL_NEGATIVE ||| (0x100 - c) := by
  intro c _ _
  have h1 : (0x200 ||| 0x100 : Nat) = 0x300 := by decide
  have h2 : (0x300 &&& 0x100 : Nat) ≠ 0 := by decide
  have h3 : (0x300 &&& 0xFF00 : Nat) = 0x300 := by decide
  simp only [wheel_cflags, PTR_FLAGS_WHEEL, PTR_FLAGS_WHEEL_NEGATIVE, h1]
  rw [if_pos h2, h3]

set_option maxRecDepth 100000 in
/-- With the negative bit in the base flags, a chunk decodes to its negation
and carries the negative bit. -/
theorem decode9_negative :
    ∀ c, c < 256 → 1 ≤ c →
      (decode9 (wheel_cflags 0x300 c) = -(c : Int) ∧
        wheel_cflags 0x300 c &&& PTR_FLAGS_WHEEL_NEGATIVE ≠ 0) ∧
      (decode9 (wheel_cflags 0x500 c) = -(c : Int) ∧
        wheel_cflags 0x500 c &&& PTR_FLAGS_WHEEL_NEGATIVE ≠ 0) := by
  decide

set_option maxRecDepth 100000 in
/-- Without the negative bit in the base flags, a chunk decodes to itself and
does not carry the negative bit. -/
theorem decode9_positive :
    ∀ c, c < 256 → 1 ≤ c →
      (decode9 (wheel_cflags 0x200 c) = (c : Int) ∧
        wheel_cflags 0x200 c &&& PTR_FLAGS_WHEEL_NEGATIVE = 0) ∧
      (decode9 (wheel_cflags 0x400 c) = (c : Int) ∧
        wheel_cflags 0x400 c &&& PTR_FLAGS_WHEEL_NEGATIVE = 0) := by
  decide

/-- The sum of a list of chunks each mapped to its negation. -/
theorem sum_map_neg (g : Nat → Int) (l : List Nat) (h : ∀ c ∈ l, g c = -(c : Int)) :
    (l.map g).sum = -((l.sum : Nat) : Int) := by
  induction l with
  | nil => simp
  | cons a t ih =>
    have ha := h a (List.mem_cons_self a t)
    have ht := ih (fun c hc => h c (List.mem_cons_of_mem a hc))
    simp only [List.map_cons, List.sum_cons, ha, ht]
    push_cast
    ring

/-- The sum of a list of chunks each mapped to itself. -/
theorem sum_map_pos (g : Nat → Int) (l : List Nat) (h : ∀ c ∈ l, g c = (c : Int)) :
    (l.map g).sum = ((l.sum : Nat) : Int) := by
  induction l with
  | nil => simp
  | cons a t ih =>
    have ha := h a (List.mem_cons_self a t)
    have ht := ih (fun c hc => h c (List.mem_cons_of_mem a hc))
    simp only [List.map_cons, List.sum_cons, ha, ht]
    push_cast
    ring

/-- C1: for a delta `v` with `0 < v < 2 ^ 31` on the vertical axis, with the
input handle present, the scaler succeeding with a position `(xs, ys)` that
fits the 16-bit wire fields and every send succeeding, `wlf_handle_wheel`
returns `TRUE` and sends exactly `ceil (v / 255)` mouse events, in order, all
at `(xs, ys)`; the flags of an event are
`PTR_FLAGS_WHEEL | PTR_FLAGS_WHEEL_NEGATIVE | (0x100 - c)` where `c` is 255 for
every event but the last and `v - 255 * (ceil (v / 255) - 1)` for the last. -/
theorem wheel_vertical_chunking (env : Env) (i : freerdp) (x y : Nat) (v : Int)
    (w : World) (xs ys : Nat) (hin : i.input = true) (hpos : 0 < v) (hlt : v < 2 ^ 31)
    (hscale : env.scale w.nscale x y = (true, xs, ys))
    (hx : xs ≤ UINT16_MAX) (hy : ys ≤ UINT16_MAX)
    (hsend : ∀ k, env.sendOk k = true) :
    wlf_handle_wheel env (some i) x y WL_POINTER_AXIS_VERTICAL_SCROLL v w =
      (some true, ⟨w.nscale + 1, w.wire ++ mouse_events xs ys
        ((spec_chunks v.toNat).map
          (fun c => PTR_FLAGS_WHEEL ||| PTR_FLAGS_WHEEL_NEGATIVE ||| (0x100 - c))),
        w.touch⟩) ∧
    (spec_chunks v.toNat).length = (v.toNat + 254) / 255 := by
  have hflags : wheel_flags WL_POINTER_AXIS_VERTICAL_SCROLL v
      = some (PTR_FLAGS_WHEEL ||| PTR_FLAGS_WHEEL_NEGATIVE) := by
    simp [wheel_flags, hpos]
  have habs : v.natAbs = v.toNat := by omega
  have hv : 0 < v.toNat := by omega
  have hxs : xs % 65536 = xs := by unfold UINT16_MAX at hx; omega
  have hys : ys % 65536 = ys := by unfold UINT16_MAX at hy; omega
  constructor
  · rw [wlf_handle_wheel_all_ok env i x y _ v w _ hin (by rw [hscale]) hsend hflags,
      hscale, habs, ← wheel_chunks_eq_spec _ hv]
    have hmap : (wheel_chunks v.toNat).map
          (wheel_cflags (PTR_FLAGS_WHEEL ||| PTR_FLAGS_WHEEL_NEGATIVE))
        = (wheel_chunks v.toNat).map
          (fun c => PTR_FLAGS_WHEEL ||| PTR_FLAGS_WHEEL_NEGATIVE ||| (0x100 - c)) := by
      apply List.map_congr_left
      intro c hc
      have hb := wheel_chunks_bounds _ c hc
      exact wheel_cflags_negative_vertical c (by omega) hb.1
    rw [hmap]
    simp only [hxs, hys]
  · unfold spec_chunks
    simp only [List.length_append, List.length_replicate, List.length_singleton]
    omega

/-- C1, at the delta 300 of the specification: two events whose low 8 bits are
`0x01` and then `0xD3`, both with the negative bit `0x0100`. -/
theorem wheel_vertical_chunking_witness :
    ((0 : Int) < 300 ∧ (300 : Int) < 2 ^ 31 ∧
      envId.scale World.start.nscale 3 4 = (true, 3, 4) ∧
      3 ≤ UINT16_MAX ∧ 4 ≤ UINT16_MAX ∧
      (∀ k, envId.sendOk k = true)) ∧
    wlf_handle_wheel envId (some ⟨true, none⟩) 3 4 WL_POINTER_AXIS_VERTICAL_SCROLL 300
        World.start =
      (some true, ⟨1, [WireEvent.mouse 0x301 3 4, WireEvent.mouse 0x3D3 3 4], []⟩) := by
  refine ⟨⟨by decide, by decide, rfl, by decide, by decide, fun _ => rfl⟩, ?_⟩
  rw [(wheel_vertical_chunking envId ⟨true, none⟩ 3 4 300 World.start 3 4 rfl
    (by decide) (by decide) rfl (by decide) (by decide) (fun _ => rfl)).1]
  decide

/-- The events of a magnitude under base flags with the negative bit decode to
a total of minus the magnitude, and all carry the negative bit. -/
theorem wheel_events_negative (F : Nat) (hF : F = 0x300 ∨ F = 0x500) (a : Nat) :
    ((((wheel_chunks a).map (wheel_cflags F)).map decode9).sum = -(a : Int)) ∧
    ∀ f ∈ (wheel_chunks a).map (wheel_cflags F), f &&& PTR_FLAGS_WHEEL_NEGATIVE ≠ 0 := by
  have key : ∀ c ∈ wheel_chunks a, decode9 (wheel_cflags F c) = -(c : Int) ∧
      wheel_cflags F c &&& PTR_FLAGS_WHEEL_NEGATIVE ≠ 0 := by
    intro c hc
    have hb := wheel_chunks_bounds a c hc
    have hd := decode9_negative c (by omega) hb.1
    rcases hF with rfl | rfl
    · exact hd.1
    · exact hd.2
  constructor
  · rw [List.map_map, sum_map_neg (decode9 ∘ wheel_cflags F) _ (fun c hc => (key c hc).1),
      wheel_chunks_sum]
  · intro f hf
    obtain ⟨c, hc, rfl⟩ := List.mem_map.mp hf
    exact (key c hc).2

/-- The events of a magnitude under base flags without the negative bit decode
to a total of the magnitude, and none carries the negative bit. -/
theorem wheel_events_positive (F : Nat) (hF : F = 0x200 ∨ F = 0x400) (a : Nat) :
    ((((wheel_chunks a).map (wheel_cflags F)).map decode9).sum = (a : Int)) ∧
    ∀ f ∈ (wheel_chunks a).map (wheel_cflags F), f &&& PTR_FLAGS_WHEEL_NEGATIVE = 0 := by
  have key : ∀ c ∈ wheel_chunks a, decode9 (wheel_cflags F c) = (c : Int) ∧
      wheel_cflags F c &&& PTR_FLAGS_WHEEL_NEGATIVE = 0 := by
    intro c hc
    have hb := wheel_chunks_bounds a c hc
    have hd := decode9_positive c (by omega) hb.1
    rcases hF with rfl | rfl
    · exact hd.1
    · exact hd.2
  constructor
  · rw [List.map_map, sum_map_pos (decode9 ∘ wheel_cflags F) _ (fun c hc => (key c hc).1),
      wheel_chunks_sum]
  · intro f hf
    obtain ⟨c, hc, rfl⟩ := List.mem_map.mp hf
    exact (key c hc).2

/-- C2: for a delta `v` with `-2 ^ 31 < v < 2 ^ 31` on either valid axis, with
the input handle present and the scaler and every send succeeding,
`wlf_handle_wheel` returns `TRUE` after mouse events whose low 9 bits, read as
9-bit twos complement numbers, add up to `-v` on the vertical axis and to `v`
on the horizontal axis; an emitted event carries the negative bit `0x0100` iff
the axis is vertical and `v > 0`, or the axis is horizontal and `v < 0`. -/
theorem wheel_signed_sum (env : Env) (i : freerdp) (x y axis : Nat) (v : Int)
    (w : World) (hin : i.input = true) (hlo : -2 ^ 31 < v) (hhi : v < 2 ^ 31)
    (hax : axis = WL_POINTER_AXIS_VERTICAL_SCROLL ∨
      axis = WL_POINTER_AXIS_HORIZONTAL_SCROLL)
    (hscale : (env.scale w.nscale x y).1 = true)
    (hsend : ∀ k, env.sendOk k = true) :
    ∃ fs : List Nat,
      wlf_handle_wheel env (some i) x y axis v w =
        (some true, ⟨w.nscale + 1, w.wire ++ mouse_events
          ((env.scale w.nscale x y).2.1 % 65536) ((env.scale w.nscale x y).2.2 % 65536)
          fs, w.touch⟩) ∧
      (fs.map decode9).sum
        = (if axis = WL_POINTER_AXIS_VERTICAL_SCROLL then -v else v) ∧
      ∀ f ∈ fs, (f &&& PTR_FLAGS_WHEEL_NEGATIVE ≠ 0 ↔
        (axis = WL_POINTER_AXIS_VERTICAL_SCROLL ∧ 0 < v) ∨
        (axis = WL_POINTER_AXIS_HORIZONTAL_SCROLL ∧ v < 0)) := by
  have hVH : WL_POINTER_AXIS_VERTICAL_SCROLL ≠ WL_POINTER_AXIS_HORIZONTAL_SCROLL := by
    decide
  rcases hax with rfl | rfl
  · by_cases hv : 0 < v
    · have hflags : wheel_flags WL_POINTER_AXIS_VERTICAL_SCROLL v = some 0x300 := by
        simp [wheel_flags, hv, PTR_FLAGS_WHEEL, PTR_FLAGS_WHEEL_NEGATIVE]
      have hev := wheel_events_negative 0x300 (Or.inl rfl) v.natAbs
      refine ⟨_, wlf_handle_wheel_all_ok env i x y _ v w _ hin hscale hsend hflags, ?_, ?_⟩
      · rw [hev.1, if_pos rfl]; omega
      · intro f hf
        exact ⟨fun _ => Or.inl ⟨rfl, hv⟩, fun _ => hev.2 f hf⟩
    · have hflags : wheel_flags WL_POINTER_AXIS_VERTICAL_SCROLL v = some 0x200 := by
        simp [wheel_flags, hv, PTR_FLAGS_WHEEL]
      have hev := wheel_events_positive 0x200 (Or.inl rfl) v.natAbs
      refine ⟨_, wlf_handle_wheel_all_ok env i x y _ v w _ hin hscale hsend hflags, ?_, ?_⟩
      · rw [hev.1, if_pos rfl]; omega
      · intro f hf
        constructor
        · intro hne; exact absurd (hev.2 f hf) hne
        · rintro (⟨_, h⟩ | ⟨h, _⟩)
          · exact absurd h hv
          · exact absurd h hVH
  · by_cases hv : v < 0
    · have hflags : wheel_flags WL_POINTER_AXIS_HORIZONTAL_SCROLL v = some 0x500 := by
        simp [wheel_flags, hv, PTR_FLAGS_HWHEEL, PTR_FLAGS_WHEEL_NEGATIVE,
          WL_POINTER_AXIS_HORIZONTAL_SCROLL, WL_POINTER_AXIS_VERTICAL_SCROLL]
      have hev := wheel_events_negative 0x500 (Or.inr rfl) v.natAbs
      refine ⟨_, wlf_handle_wheel_all_ok env i x y _ v w _ hin hscale hsend hflags, ?_, ?_⟩
      · rw [hev.1, if_neg (Ne.symm hVH)]; omega
      · intro f hf
        exact ⟨fun _ => Or.inr ⟨rfl, hv⟩, fun _ => hev.2 f hf⟩
    · have hflags : wheel_flags WL_POINTER_AXIS_HORIZONTAL_SCROLL v = some 0x400 := by
        simp [wheel_flags, hv, PTR_FLAGS_HWHEEL,
          WL_POINTER_AXIS_HORIZONTAL_SCROLL, WL_POINTER_AXIS_VERTICAL_SCROLL]
      have hev := wheel_events_positive 0x400 (Or.inr rfl) v.natAbs
      refine ⟨_, wlf_handle_wheel_all_ok env i x y _ v w _ hin hscale hsend hflags, ?_, ?_⟩
      · rw [hev.1, if_neg (Ne.symm hVH)]; omega
      · intro f hf
        constructor
        · intro hne; exact absurd (hev.2 f hf) hne
        · rintro (⟨h, _⟩ | ⟨_, h⟩)
          · exact absurd h.symm hVH
          · exact absurd h hv

/-- C2, at the delta `-300` on the horizontal axis. -/
theorem wheel_signed_sum_witness :
    ((-2 : Int) ^ 31 < -300 ∧ (-300 : Int) < 2 ^ 31 ∧
      (envId.scale World.start.nscale 3 4).1 = true ∧ (∀ k, envId.sendOk k = true)) ∧
    ∃ fs : List Nat,
      wlf_handle_wheel envId (some ⟨true, none⟩) 3 4 WL_POINTER_AXIS_HORIZONTAL_SCROLL
          (-300) World.start =
        (some true, ⟨1, [] ++ mouse_events (3 % 65536) (4 % 65536) fs, []⟩) ∧
      (fs.map decode9).sum = -300 ∧
      ∀ f ∈ fs, (f &&& PTR_FLAGS_WHEEL_NEGATIVE ≠ 0 ↔
        (WL_POINTER_AXIS_HORIZONTAL_SCROLL = WL_POINTER_AXIS_VERTICAL_SCROLL ∧
          (0 : Int) < -300) ∨
        (WL_POINTER_AXIS_HORIZONTAL_SCROLL = WL_POINTER_AXIS_HORIZONTAL_SCROLL ∧
          (-300 : Int) < 0)) :=
  ⟨⟨by decide, by decide, rfl, fun _ => rfl⟩,
    wheel_signed_sum envId ⟨true, none⟩ 3 4 WL_POINTER_AXIS_HORIZONTAL_SCROLL (-300)
      World.start rfl (by decide) (by decide) (Or.inr rfl) rfl (fun _ => rfl)⟩

/-! ## Properties of the axis frame coalescer -/

/-- The truncation of a quotient of integers, computed on the quotient as a
rational number, is the truncating integer division. -/
theorem double_to_int32_div (a : Int) (b : Nat) :
    double_to_int32 ((a : ℚ) / (b : ℚ)) = Int.tdiv a b := by
  unfold double_to_int32
  have key : ∀ (q : ℚ) (a : Int), 0 ≤ a → q = (a : ℚ) / (b : ℚ) →
      Int.tdiv q.num q.den = Int.tdiv a b := by
    intro q a ha h
    have hq : 0 ≤ q := by rw [h]; positivity
    have hn : 0 ≤ q.num := Rat.num_nonneg.mpr hq
    rw [Int.tdiv_eq_ediv hn (by positivity), Int.tdiv_eq_ediv ha (by positivity),
      ← Rat.floor_def, h, Rat.floor_intCast_div_natCast]
  rcases le_total 0 a with ha | ha
  · exact key _ a ha rfl
  · have := key (-((a : ℚ) / (b : ℚ))) (-a) (by omega) (by push_cast; ring)
    rw [Rat.neg_num, Rat.neg_den, Int.neg_tdiv, Int.neg_tdiv] at this
    exact neg_injective this

/-- The delta the finger and continuous branch passes to the wheel quantizer
for a raw 24.8 fixed-point value `v`: `3 * v / 64` truncated toward zero. -/
theorem continuous_delta (v : Int) :
    double_to_int32 (wl_fixed_to_double v * 0x78 / 10) = Int.tdiv (3 * v) 64 := by
  have h : wl_fixed_to_double v * 0x78 / 10 = (((3 * v : Int) : ℚ)) / ((64 : Nat) : ℚ) := by
    unfold wl_fixed_to_double
    push_cast
    ring
  rw [h, double_to_int32_div]
  rfl

/-- Under a wheel source the replay makes no call at all when the tag of the
frame event is not the discrete-step tag. -/
theorem frame_replay_wheel_not_discrete (env : Env) (i : freerdp)
    (ev : UwacPointerFrameEvent) (source : Nat)
    (hsrc : source = WL_POINTER_AXIS_SOURCE_WHEEL ∨
      source = WL_POINTER_AXIS_SOURCE_WHEEL_TILT)
    (hev : ev.type ≠ UwacEventType.UWAC_EVENT_POINTER_AXIS_DISCRETE)
    (events : List (Option UwacEvent)) (success : Bool) (w : World) :
    frame_replay env i ev source events success w = (some success, w) := by
  induction events with
  | nil => rfl
  | cons c rest ih =>
    cases c with
    | none => simpa [frame_replay] using ih
    | some cev => simpa [frame_replay, hsrc, hev] using ih

/-- C3 (the code at the failing input): on the buffer made of a wheel source
entry and a discrete vertical entry of value 2, the frame end call with the
frame marker event returns `TRUE` with an empty buffer and without any wire
event, although the wheel quantizer on the delta `2 * 120 = 240` at the
position of the entry sends one event of magnitude 240.  The wheel branch tests
the tag of the frame event where the finger and continuous branch tests the
tag of the buffered entry. -/
theorem frame_wheel_source_emits_nothing :
    wlf_handle_pointer_frame envId (some (instWithEvents [some sourceWheel, some discreteTwo]))
        (some frameMarker) World.start =
      ⟨some true, some (instWithEvents []), World.start⟩ ∧
    wrap32 (discreteTwo.value * 0x78) = 240 ∧
    wlf_handle_wheel envId (some (instWithEvents [])) discreteTwo.x discreteTwo.y
        discreteTwo.axis 240 World.start =
      (some true, ⟨1, [WireEvent.mouse (0x300 ||| (0x100 - 240)) 10 20], []⟩) := by
  refine ⟨by decide, by decide, ?_⟩
  have hflags : wheel_flags discreteTwo.axis 240 = some 0x300 := by decide
  have hrun := wlf_handle_wheel_all_ok envId (instWithEvents []) discreteTwo.x discreteTwo.y
    discreteTwo.axis 240 World.start 0x300 rfl rfl (fun _ => rfl) hflags
  have hchunks : wheel_chunks (240 : Int).natAbs = [240] := by
    rw [show (240 : Int).natAbs = 240 from rfl, wheel_chunks_eq_spec 240 (by decide)]
    decide
  rw [hchunks] at hrun
  rw [hrun]
  decide

/-! ## Properties of the touch contact tracker -/

/-- Slot 0 of a table is its head. -/
theorem slot_zero (c : touchContact) (cs : List touchContact) : slot (c :: cs) 0 = c := rfl

/-- Slot `k + 1` of a table is slot `k` of its tail. -/
theorem slot_succ (c : touchContact) (cs : List touchContact) (k : Nat) :
    slot (c :: cs) (k + 1) = slot cs k := rfl

/-- The table of an instance whose slots were written. -/
@[simp] theorem contacts_of_set_contacts (i : freerdp) (wlf : wlfContext)
    (cs : List touchContact) : contacts_of (some (set_contacts i wlf cs)) = cs := rfl

/-- The context of an instance whose slots were written. -/
theorem set_contacts_context (i : freerdp) (wlf : wlfContext) (cs : List touchContact) :
    (set_contacts i wlf cs).context = some { wlf with contacts := cs } := rfl

/-- The loop runs to `MAX_CONTACTS` exactly when no slot satisfies the test. -/
theorem first_slot_eq_none (p : touchContact → Bool) (l : List touchContact) :
    first_slot p l = none ↔ ∀ c ∈ l, p c = false := by
  induction l with
  | nil => simp [first_slot]
  | cons c cs ih =>
    by_cases hp : p c = true
    · simp [first_slot, hp]
    · simp [first_slot, hp, ih]

/-- The index at which the loop breaks is the lowest index of a slot that
satisfies the test. -/
theorem first_slot_eq_some (p : touchContact → Bool) (l : List touchContact) (k : Nat)
    (h : first_slot p l = some k) :
    k < l.length ∧ p (slot l k) = true ∧ ∀ j, j < k → p (slot l j) = false := by
  induction l generalizing k with
  | nil => simp [first_slot] at h
  | cons c cs ih =>
    by_cases hp : p c = true
    · simp only [first_slot, hp, if_true, Option.some.injEq] at h
      subst h
      exact ⟨by simp, by simpa [slot_zero] using hp, by intro j hj; omega⟩
    · simp only [first_slot, hp, Option.map_eq_some'] at h
      obtain ⟨k', hk', rfl⟩ := by simpa using h
      obtain ⟨h1, h2, h3⟩ := ih k' hk'
      refine ⟨by simp; omega, by simpa [slot_succ] using h2, ?_⟩
      intro j hj
      cases j with
      | zero => simpa [slot_zero] using hp
      | succ j => simpa [slot_succ] using h3 j (by omega)

/-- The contact table after `wlf_handle_touch_up`: the slot at which the loop
breaks has its id reset, whatever the call returns. -/
theorem touch_up_contacts (env : Env) (i : freerdp) (wlf : wlfContext) (e : UwacTouch)
    (w : World) (hc : i.context = some wlf) :
    contacts_of (wlf_handle_touch_up env (some i) (some e) w).inst =
      match first_slot (fun c => decide (c.id = e.id)) wlf.contacts with
      | none => wlf.contacts
      | some k => wlf.contacts.set k { slot wlf.contacts k with id := 0 } := by
  unfold wlf_handle_touch_up
  simp only [hc]
  cases first_slot (fun c => decide (c.id = e.id)) wlf.contacts with
  | none => simp [contacts_of, hc]
  | some k =>
    simp only []
    repeat' split
    all_goals simp [contacts_of, set_contacts]

/-- The contact table after `wlf_handle_touch_down`: the lowest free slot is
populated with the id and the position of the event, whatever the call
returns. -/
theorem touch_down_contacts (env : Env) (i : freerdp) (wlf : wlfContext) (e : UwacTouch)
    (w : World) (hc : i.context = some wlf) :
    contacts_of (wlf_handle_touch_down env (some i) (some e) w).inst =
      match first_slot (fun c => decide (c.id = 0)) wlf.contacts with
      | none => wlf.contacts
      | some k => wlf.contacts.set k ⟨e.id, e.x, e.y, touch_down_emulate env wlf e w⟩ := by
  unfold wlf_handle_touch_down touch_down_emulate
  simp only [hc]
  cases first_slot (fun c => decide (c.id = 0)) wlf.contacts with
  | none => simp [contacts_of, hc]
  | some k =>
    simp only []
    repeat' split
    all_goals simp_all [contacts_of, set_contacts]

/-- The contact table after `wlf_handle_touch_motion`: at most the position of
the lowest slot holding the id of the event changes, whatever the call
returns. -/
theorem touch_motion_contacts (env : Env) (i : freerdp) (wlf : wlfContext)
    (e : UwacTouch) (w : World) (hc : i.context = some wlf) :
    contacts_of (wlf_handle_touch_motion env (some i) (some e) w).inst =
      match first_slot (fun c => decide (c.id = e.id)) wlf.contacts with
      | none => wlf.contacts
      | some k =>
        wlf.contacts.set k { slot wlf.contacts k with pos_x := e.x, pos_y := e.y } := by
  unfold wlf_handle_touch_motion
  simp only [hc]
  cases hk : first_slot (fun c => decide (c.id = e.id)) wlf.contacts with
  | none => simp [contacts_of, hc]
  | some k =>
    simp only []
    have hlt := (first_slot_eq_some _ _ _ hk).1
    have hself : wlf.contacts.set k (slot wlf.contacts k) = wlf.contacts := by
      apply List.ext_getElem (by simp)
      intro n h1 h2
      rw [List.getElem_set]
      split
      · subst n
        simp only [slot]
        rw [List.getD_eq_getElem _ _ hlt]
      · rfl
    split
    · rename_i h
      obtain ⟨hx, hy⟩ := h
      rw [← hx, ← hy]
      simp only [contacts_of, hc]
      exact hself.symm
    · repeat' split
      all_goals simp [contacts_of, set_contacts]

/-- A table whose slots are all free satisfies the uniqueness invariant. -/
theorem unique_ids_all_free (l : List touchContact) (h : ∀ c ∈ l, c.id = 0) :
    unique_ids l := by
  unfold unique_ids slot_ids
  have hnil : (l.map touchContact.id).filter (fun t => decide (t ≠ 0)) = [] := by
    rw [List.filter_eq_nil_iff]
    intro t ht
    obtain ⟨c, hc, rfl⟩ := List.mem_map.mp ht
    simp [h c hc]
  rw [hnil]
  exact List.nodup_nil

/-- Resetting one id removes at most that id from the list of the non-zero
ids. -/
theorem filter_set_zero_sublist (ids : List Int) (k : Nat) :
    ((ids.set k 0).filter (fun t => decide (t ≠ 0))).Sublist
      (ids.filter (fun t => decide (t ≠ 0))) := by
  induction ids generalizing k with
  | nil => simp
  | cons a t ih =>
    cases k with
    | zero =>
      rw [List.set_cons_zero]
      have h0 : List.filter (fun t => decide (t ≠ 0)) ((0 : Int) :: t)
          = List.filter (fun t => decide (t ≠ 0)) t := by simp
      rw [h0]
      exact List.Sublist.filter _ (List.sublist_cons_self a t)
    | succ k =>
      rw [List.set_cons_succ]
      by_cases ha : a = 0
      · simpa [ha] using ih k
      · simpa [ha] using ih k

/-- Resetting the id of a slot keeps the uniqueness invariant. -/
theorem unique_ids_reset (l : List touchContact) (k : Nat) (c : touchContact)
    (hc : c.id = 0) (h : unique_ids l) : unique_ids (l.set k c) := by
  unfold unique_ids slot_ids at *
  rw [List.map_set, hc]
  exact List.Nodup.sublist (filter_set_zero_sublist _ k) h

/-- Writing to a slot a contact with the id the slot already has keeps the ids
of the table. -/
theorem slot_ids_set_same (l : List touchContact) (k : Nat) (c : touchContact)
    (hc : c.id = (slot l k).id) : slot_ids (l.set k c) = slot_ids l := by
  induction l generalizing k with
  | nil => simp
  | cons a t ih =>
    cases k with
    | zero =>
      rw [slot_zero] at hc
      simp [slot_ids, hc]
    | succ k =>
      rw [slot_succ] at hc
      have := ih k hc
      simp only [slot_ids] at this
      simp [slot_ids, this]

/-- Populating the lowest free slot with an id that is zero or that no slot
holds keeps the uniqueness invariant. -/
theorem unique_ids_populate (l : List touchContact) (k : Nat) (c : touchContact)
    (hk : first_slot (fun d => decide (d.id = 0)) l = some k)
    (hnew : c.id = 0 ∨ ∀ d ∈ l, d.id ≠ c.id) (h : unique_ids l) :
    unique_ids (l.set k c) := by
  induction l generalizing k with
  | nil => simp [first_slot] at hk
  | cons a t ih =>
    by_cases ha : a.id = 0
    · have hk0 : k = 0 := by simpa [first_slot, ha] using hk.symm
      subst hk0
      rw [List.set_cons_zero]
      unfold unique_ids slot_ids at *
      simp only [List.map_cons, ha] at h
      have ht : (List.filter (fun t => decide (t ≠ 0)) (List.map touchContact.id t)).Nodup := by
        simpa using h
      by_cases hc0 : c.id = 0
      · simpa [hc0] using ht
      · have hnot : ∀ d ∈ t, d.id ≠ c.id := by
          rcases hnew with h0 | hn
          · exact absurd h0 hc0
          · intro d hd; exact hn d (List.mem_cons_of_mem a hd)
        simp only [List.map_cons, List.filter_cons, hc0, ne_eq, not_false_eq_true,
          decide_True, if_true, List.nodup_cons]
        refine ⟨?_, ht⟩
        intro hmem
        obtain ⟨hm, _⟩ := List.mem_filter.mp hmem
        obtain ⟨d, hd, hdc⟩ := List.mem_map.mp hm
        exact hnot d hd hdc
    · simp only [first_slot, ha, decide_False, Bool.false_eq_true, if_false,
        Option.map_eq_some'] at hk
      obtain ⟨k', hk', rfl⟩ := hk
      rw [List.set_cons_succ]
      have hnew' : c.id = 0 ∨ ∀ d ∈ t, d.id ≠ c.id := by
        rcases hnew with h0 | hn
        · exact Or.inl h0
        · exact Or.inr (fun d hd => hn d (List.mem_cons_of_mem a hd))
      have hac : c.id ≠ 0 → a.id ≠ c.id := by
        intro hc0
        rcases hnew with h0 | hn
        · exact absurd h0 hc0
        · exact hn a (List.mem_cons_self a t)
      have htail : unique_ids t := by
        unfold unique_ids slot_ids at *
        simp only [List.map_cons, List.filter_cons, ha, ne_eq, not_false_eq_true,
          decide_True, if_true, List.nodup_cons] at h
        exact h.2
      have ih' := ih k' hk' hnew' htail
      unfold unique_ids slot_ids at *
      simp only [List.map_cons, List.filter_cons, ha, ne_eq, not_false_eq_true,
        decide_True, if_true, List.nodup_cons] at h ⊢
      refine ⟨?_, ih'⟩
      intro hmem
      obtain ⟨hm, _⟩ := List.mem_filter.mp hmem
      obtain ⟨d, hd, hdc⟩ := List.mem_map.mp hm
      rcases List.mem_or_eq_of_mem_set hd with hdt | hdc'
      · apply h.1
        exact List.mem_filter.mpr ⟨List.mem_map.mpr ⟨d, hdt, hdc⟩, by simpa using ha⟩
      · subst hdc'
        exact hac (by rw [hdc]; exact ha) hdc.symm

/-- Touch-end keeps the uniqueness invariant. -/
theorem touch_up_unique (env : Env) (inst : Option freerdp) (ev : Option UwacTouch)
    (w : World) (h : unique_ids (contacts_of inst)) :
    unique_ids (contacts_of (wlf_handle_touch_up env inst ev w).inst) := by
  cases inst with
  | none => simpa [wlf_handle_touch_up] using h
  | some i =>
    cases ev with
    | none => simpa [wlf_handle_touch_up] using h
    | some e =>
      cases hc : i.context with
      | none => simpa [wlf_handle_touch_up, hc] using h
      | some wlf =>
        have hl : contacts_of (some i) = wlf.contacts := by simp [contacts_of, hc]
        rw [hl] at h
        rw [touch_up_contacts env i wlf e w hc]
        split
        · exact h
        · exact unique_ids_reset _ _ _ rfl h

/-- Touch-motion keeps the uniqueness invariant. -/
theorem touch_motion_unique (env : Env) (inst : Option freerdp) (ev : Option UwacTouch)
    (w : World) (h : unique_ids (contacts_of inst)) :
    unique_ids (contacts_of (wlf_handle_touch_motion env inst ev w).inst) := by
  cases inst with
  | none => simpa [wlf_handle_touch_motion] using h
  | some i =>
    cases ev with
    | none => simpa [wlf_handle_touch_motion] using h
    | some e =>
      cases hc : i.context with
      | none => simpa [wlf_handle_touch_motion, hc] using h
      | some wlf =>
        have hl : contacts_of (some i) = wlf.contacts := by simp [contacts_of, hc]
        rw [hl] at h
        rw [touch_motion_contacts env i wlf e w hc]
        split
        · exact h
        · rename_i k _
          unfold unique_ids
          rw [slot_ids_set_same wlf.contacts k
            { slot wlf.contacts k with pos_x := e.x, pos_y := e.y } rfl]
          exact h

/-- Touch-begin keeps the uniqueness invariant when the id of the event is zero
or new to the table. -/
theorem touch_down_unique (env : Env) (inst : Option freerdp) (ev : Option UwacTouch)
    (w : World) (h : unique_ids (contacts_of inst))
    (hnew : ∀ e, ev = some e → e.id = 0 ∨ ∀ c ∈ contacts_of inst, c.id ≠ e.id) :
    unique_ids (contacts_of (wlf_handle_touch_down env inst ev w).inst) := by
  cases inst with
  | none => simpa [wlf_handle_touch_down] using h
  | some i =>
    cases ev with
    | none => simpa [wlf_handle_touch_down] using h
    | some e =>
      cases hc : i.context with
      | none => simpa [wlf_handle_touch_down, hc] using h
      | some wlf =>
        have hl : contacts_of (some i) = wlf.contacts := by simp [contacts_of, hc]
        rw [hl] at h
        have hn := hnew e rfl
        rw [hl] at hn
        rw [touch_down_contacts env i wlf e w hc]
        split
        · exact h
        · rename_i k hk
          exact unique_ids_populate _ k _ hk hn h

/-- C4 (amended): the predicate that no two slots of the contact table hold the
same non-zero id holds for every table whose slots are all free; it is
preserved by every `wlf_handle_touch_up` and every `wlf_handle_touch_motion`
call, for every event and whatever the call returns; and it is preserved by
every `wlf_handle_touch_down` call whose event id is zero or is not held by any
slot of the table, whatever the call returns. -/
theorem contact_ids_unique_preserved (env : Env) (inst : Option freerdp)
    (ev : Option UwacTouch) (w : World) (h : unique_ids (contacts_of inst)) :
    (∀ l : List touchContact, (∀ c ∈ l, c.id = 0) → unique_ids l) ∧
    unique_ids (contacts_of (wlf_handle_touch_up env inst ev w).inst) ∧
    unique_ids (contacts_of (wlf_handle_touch_motion env inst ev w).inst) ∧
    ((∀ e, ev = some e → e.id = 0 ∨ ∀ c ∈ contacts_of inst, c.id ≠ e.id) →
      unique_ids (contacts_of (wlf_handle_touch_down env inst ev w).inst)) :=
  ⟨unique_ids_all_free, touch_up_unique env inst ev w h,
    touch_motion_unique env inst ev w h, touch_down_unique env inst ev w h⟩

/-- C4, at a table holding the id 5 and an event of id 7. -/
theorem contact_ids_unique_preserved_witness :
    unique_ids (contacts_of (some instOneContact)) ∧
    unique_ids (contacts_of
      (wlf_handle_touch_up envId (some instOneContact) (some ⟨7, 2, 2⟩) World.start).inst) ∧
    unique_ids (contacts_of
      (wlf_handle_touch_motion envId (some instOneContact) (some ⟨7, 2, 2⟩)
        World.start).inst) ∧
    unique_ids (contacts_of
      (wlf_handle_touch_down envId (some instOneContact) (some ⟨7, 2, 2⟩)
        World.start).inst) := by
  have h := contact_ids_unique_preserved envId (some instOneContact) (some ⟨7, 2, 2⟩)
    World.start (by decide)
  exact ⟨by decide, h.2.1, h.2.2.1, h.2.2.2 (by decide)⟩

/-- C4 as stated fails for a touch-begin whose id is already in the table: the
table holding the id 5 in slot 0 satisfies the invariant, and after
`wlf_handle_touch_down` with the id 5 the slots 0 and 1 both hold 5. -/
theorem touch_down_duplicate_id_counterexample :
    unique_ids (contacts_of (some instOneContact)) ∧
    contacts_of (wlf_handle_touch_down envId (some instOneContact) (some ⟨5, 2, 2⟩)
      World.start).inst = [⟨5, 1, 1, false⟩, ⟨5, 2, 2, false⟩] ∧
    ¬ unique_ids (contacts_of
      (wlf_handle_touch_down envId (some instOneContact) (some ⟨5, 2, 2⟩)
        World.start).inst) := by
  decide

/-- C5 (amended): for every contact table and every event id that no slot of
the table holds (a non-zero id that is not the id of an active slot, or the id
0 when no slot is free), `wlf_handle_touch_up` returns `FALSE`, sends no wire
event, forwards nothing to the touch channel and leaves the table
unchanged. -/
theorem touch_up_unknown_id (env : Env) (i : freerdp) (wlf : wlfContext) (e : UwacTouch)
    (w : World) (hc : i.context = some wlf) (hun : ∀ c ∈ wlf.contacts, c.id ≠ e.id) :
    wlf_handle_touch_up env (some i) (some e) w = ⟨some false, some i, w⟩ := by
  have hnone : first_slot (fun c => decide (c.id = e.id)) wlf.contacts = none := by
    rw [first_slot_eq_none]
    intro c hcm
    simpa using hun c hcm
  simp [wlf_handle_touch_up, hc, hnone]

/-- C5, at a table holding the id 5 and the event id 7. -/
theorem touch_up_unknown_id_witness :
    (∀ c ∈ contacts_of (some instOneContact), c.id ≠ 7) ∧
    wlf_handle_touch_up envId (some instOneContact) (some ⟨7, 0, 0⟩) World.start =
      ⟨some false, some instOneContact, World.start⟩ :=
  ⟨by decide, touch_up_unknown_id envId instOneContact _ ⟨7, 0, 0⟩ World.start rfl
    (by decide)⟩

/-- C5 as stated fails for the event id 0: on a table whose slots are all free
no active slot holds the id 0, and `wlf_handle_touch_up` with the id 0 breaks
at the free slot 0, forwards a touch-end to the channel and returns `TRUE`. -/
theorem touch_up_free_sentinel_counterexample :
    (∀ c ∈ contacts_of (some instAllFree), c.id ≠ 0 → c.id ≠ touchZero.id) ∧
    wlf_handle_touch_up envId (some instAllFree) (some touchZero) World.start =
      ⟨some true, some instAllFree, ⟨1, [], [TouchCall.TouchEnd 0 0 0]⟩⟩ := by
  decide

/-- C6: for every contact table in which every slot holds a non-zero id and
every begin event, `wlf_handle_touch_down` returns `FALSE`, sends no wire event,
forwards nothing to the touch channel and leaves every slot unchanged. -/
theorem touch_down_full_table (env : Env) (i : freerdp) (wlf : wlfContext)
    (e : UwacTouch) (w : World) (hc : i.context = some wlf)
    (hfull : ∀ c ∈ wlf.contacts, c.id ≠ 0) :
    wlf_handle_touch_down env (some i) (some e) w = ⟨some false, some i, w⟩ := by
  have hnone : first_slot (fun c => decide (c.id = 0)) wlf.contacts = none := by
    rw [first_slot_eq_none]
    intro c hcm
    simpa using hfull c hcm
  simp [wlf_handle_touch_down, hc, hnone]

/-- C6, at a table of two slots holding the ids 1 and 2. -/
theorem touch_down_full_table_witness :
    (∀ c ∈ contacts_of (some instFull), c.id ≠ 0) ∧
    wlf_handle_touch_down envId (some instFull) (some ⟨9, 7, 8⟩) World.start =
      ⟨some false, some instFull, World.start⟩ :=
  ⟨by decide, touch_down_full_table envId instFull _ ⟨9, 7, 8⟩ World.start rfl
    (by decide)⟩

/-- Reading the slot that was written. -/
theorem slot_set_self (l : List touchContact) (k : Nat) (c : touchContact)
    (hk : k < l.length) : slot (l.set k c) k = c := by
  simp [slot, List.getD_eq_getElem?_getD, List.getElem?_set, hk]

/-- Reading a slot other than the one that was written. -/
theorem slot_set_ne (l : List touchContact) (k j : Nat) (c : touchContact) (h : j ≠ k) :
    slot (l.set k c) j = slot l j := by
  simp [slot, List.getD_eq_getElem?_getD, List.getElem?_set, Ne.symm h]

/-- After a slot is written with a contact satisfying a test that no slot of
the table satisfied, the loop breaks at that slot. -/
theorem first_slot_set_new (p : touchContact → Bool) (l : List touchContact) (k : Nat)
    (c : touchContact) (hk : k < l.length) (hp : p c = true)
    (hnone : ∀ d ∈ l, p d = false) : first_slot p (l.set k c) = some k := by
  induction l generalizing k with
  | nil => simp at hk
  | cons a t ih =>
    cases k with
    | zero => simp [first_slot, hp]
    | succ k =>
      have ha : p a = false := hnone a (List.mem_cons_self a t)
      have := ih k (by simpa using hk) (fun d hd => hnone d (List.mem_cons_of_mem a hd))
      simp [first_slot, ha, this]

/-- The function `scale_signed_coordinates` on a position without a negative
coordinate, when the scaled values are below `INT32_MAX`. -/
theorem scale_signed_coordinates_eq (env : Env) (x y : Int) (w : World) (b : Bool)
    (sx sy : Nat) (hx : 0 ≤ x) (hy : 0 ≤ y)
    (hs : env.scale w.nscale x.toNat y.toNat = (b, sx, sy))
    (hsx : sx < INT32_MAX) (hsy : sy < INT32_MAX) :
    scale_signed_coordinates env x y w =
      (some (b, (sx : Int), (sy : Int)), ⟨w.nscale + 1, w.wire, w.touch⟩) := by
  have hneg : ¬ (x < 0 ∨ y < 0) := by omega
  simp [scale_signed_coordinates, wlf_scale_coordinates, hneg, hs, hsx, hsy]

/-- The run of `wlf_handle_touch_down` that finds a free slot, on a position
without a negative coordinate, when the scaler succeeds with values that fit
16 bits. -/
theorem touch_down_run (env : Env) (i : freerdp) (wlf : wlfContext) (d : UwacTouch)
    (w : World) (k sx sy : Nat) (hc : i.context = some wlf)
    (hk : first_slot (fun c => decide (c.id = 0)) wlf.contacts = some k)
    (hx : 0 ≤ d.x) (hy : 0 ≤ d.y)
    (hs : env.scale w.nscale d.x.toNat d.y.toNat = (true, sx, sy))
    (hsx : sx ≤ UINT16_MAX) (hsy : sy ≤ UINT16_MAX) :
    wlf_handle_touch_down env (some i) (some d) w =
      if wlf.rdpei = false then
        ⟨some (env.sendOk w.wire.length),
          some (set_contacts i wlf (wlf.contacts.set k ⟨d.id, d.x, d.y, true⟩)),
          ⟨w.nscale + 1, w.wire ++ [WireEvent.mouse
            (PTR_FLAGS_DOWN ||| PTR_FLAGS_MOVE ||| PTR_FLAGS_BUTTON1) sx sy], w.touch⟩⟩
      else
        ⟨some true,
          some (set_contacts i wlf (wlf.contacts.set k ⟨d.id, d.x, d.y, false⟩)),
          ⟨w.nscale + 1, w.wire, w.touch ++ [TouchCall.TouchBegin d.id sx sy]⟩⟩ := by
  have h1 : sx < INT32_MAX := by unfold UINT16_MAX at hsx; unfold INT32_MAX; omega
  have h2 : sy < INT32_MAX := by unfold UINT16_MAX at hsy; unfold INT32_MAX; omega
  have hsc := scale_signed_coordinates_eq env d.x d.y w true sx sy hx hy hs h1 h2
  have hle : ((sx : Int) ≤ (UINT16_MAX : Nat) ∧ (sy : Int) ≤ (UINT16_MAX : Nat)) := by
    constructor <;> exact_mod_cast ‹_›
  unfold wlf_handle_touch_down
  simp only [hc, hk, hsc]
  by_cases hr : wlf.rdpei = false
  · simp [hr, hle, freerdp_input_send_mouse_event]
    unfold UINT16_MAX at hsx hsy
    omega
  · simp [hr]

/-- A slot within the capacity is a member of the table. -/
theorem slot_mem (l : List touchContact) (k : Nat) (hk : k < l.length) : slot l k ∈ l := by
  simp only [slot]
  rw [List.getD_eq_getElem _ _ hk]
  exact List.getElem_mem _

/-- When some slot satisfies the test, the loop breaks at a slot. -/
theorem first_slot_of_mem (p : touchContact → Bool) (l : List touchContact)
    (h : ∃ c ∈ l, p c = true) : ∃ k, first_slot p l = some k := by
  cases hk : first_slot p l with
  | some k => exact ⟨k, rfl⟩
  | none =>
    obtain ⟨c, hc, hp⟩ := h
    have := (first_slot_eq_none p l).mp hk c hc
    rw [this] at hp
    exact absurd hp (by simp)

/-- The instance after `wlf_handle_touch_up` when the loop breaks at a slot:
only the id of that slot changes, whatever the call returns. -/
theorem touch_up_inst (env : Env) (i : freerdp) (wlf : wlfContext) (e : UwacTouch)
    (w : World) (k : Nat) (hc : i.context = some wlf)
    (hk : first_slot (fun c => decide (c.id = e.id)) wlf.contacts = some k) :
    (wlf_handle_touch_up env (some i) (some e) w).inst =
      some (set_contacts i wlf
        (wlf.contacts.set k { slot wlf.contacts k with id := 0 })) := by
  unfold wlf_handle_touch_up
  simp only [hc, hk]
  repeat' split
  all_goals rfl

/-- C7: for every contact table and every id `t` held by some slot (in
particular every non-zero one), after `wlf_handle_touch_up` with `t` the
lowest-index slot that held `t` has the id 0 and the ids of all other slots
are unchanged; a following `wlf_handle_touch_down` with any id `u` (in
particular any non-zero one) finds a free slot, even if the table was full
before, and stores `u` and the position of the event in the lowest-index slot
whose id is 0; it returns `TRUE` when the position has no negative
coordinate, the scaler succeeds with values that fit 16 bits and the send
succeeds. -/
theorem touch_up_frees_reusable_slot (env : Env) (i : freerdp) (wlf : wlfContext)
    (e : UwacTouch) (w : World) (hc : i.context = some wlf)
    (hheld : ∃ c ∈ wlf.contacts, c.id = e.id) :
    ∃ k,
      (k < wlf.contacts.length ∧ (slot wlf.contacts k).id = e.id ∧
        ∀ j, j < k → (slot wlf.contacts j).id ≠ e.id) ∧
      (slot (contacts_of (wlf_handle_touch_up env (some i) (some e) w).inst) k).id = 0 ∧
      (∀ j, j ≠ k →
        (slot (contacts_of (wlf_handle_touch_up env (some i) (some e) w).inst) j).id
          = (slot wlf.contacts j).id) ∧
      ∀ (env2 : Env) (d : UwacTouch) (w2 : World),
        ∃ m,
          (m < (contacts_of (wlf_handle_touch_up env (some i) (some e) w).inst).length ∧
            (slot (contacts_of (wlf_handle_touch_up env (some i) (some e) w).inst) m).id = 0 ∧
            ∀ j, j < m →
              (slot (contacts_of (wlf_handle_touch_up env (some i) (some e) w).inst) j).id
                ≠ 0) ∧
          (slot (contacts_of (wlf_handle_touch_down env2
              (wlf_handle_touch_up env (some i) (some e) w).inst (some d) w2).inst) m).id
            = d.id ∧
          (slot (contacts_of (wlf_handle_touch_down env2
              (wlf_handle_touch_up env (some i) (some e) w).inst (some d) w2).inst) m).pos_x
            = d.x ∧
          (slot (contacts_of (wlf_handle_touch_down env2
              (wlf_handle_touch_up env (some i) (some e) w).inst (some d) w2).inst) m).pos_y
            = d.y ∧
          (∀ sx sy, 0 ≤ d.x → 0 ≤ d.y →
            env2.scale w2.nscale d.x.toNat d.y.toNat = (true, sx, sy) →
            sx ≤ UINT16_MAX → sy ≤ UINT16_MAX → env2.sendOk w2.wire.length = true →
            (wlf_handle_touch_down env2
              (wlf_handle_touch_up env (some i) (some e) w).inst (some d) w2).rc
              = some true) := by
  obtain ⟨k, hk⟩ := first_slot_of_mem (fun c => decide (c.id = e.id)) wlf.contacts
    (by obtain ⟨c, hcm, hce⟩ := hheld; exact ⟨c, hcm, by simpa using hce⟩)
  obtain ⟨hlt, hpk, hlow⟩ := first_slot_eq_some _ _ _ hk
  have hinst := touch_up_inst env i wlf e w k hc hk
  have hcont : contacts_of (wlf_handle_touch_up env (some i) (some e) w).inst
      = wlf.contacts.set k { slot wlf.contacts k with id := 0 } := by
    rw [hinst]; rfl
  refine ⟨k, ⟨hlt, by simpa using hpk, fun j hj => by simpa using hlow j hj⟩, ?_, ?_, ?_⟩
  · rw [hcont, slot_set_self _ _ _ hlt]
  · intro j hj
    rw [hcont, slot_set_ne _ _ _ _ hj]
  · intro env2 d w2
    rw [hcont, hinst]
    obtain ⟨m, hm⟩ := first_slot_of_mem (fun c => decide (c.id = 0))
      (wlf.contacts.set k { slot wlf.contacts k with id := 0 })
      ⟨slot (wlf.contacts.set k { slot wlf.contacts k with id := 0 }) k,
        slot_mem _ _ (by simpa using hlt), by rw [slot_set_self _ _ _ hlt]; simp⟩
    obtain ⟨hmlt, hpm, hmlow⟩ := first_slot_eq_some _ _ _ hm
    have hmlt' : m < wlf.contacts.length := by simpa using hmlt
    have hdown := touch_down_contacts env2
      (set_contacts i wlf (wlf.contacts.set k { slot wlf.contacts k with id := 0 }))
      { wlf with contacts := wlf.contacts.set k { slot wlf.contacts k with id := 0 } }
      d w2 rfl
    simp only [hm] at hdown
    refine ⟨m, ⟨hmlt, by simpa using hpm, fun j hj => by simpa using hmlow j hj⟩, ?_, ?_, ?_, ?_⟩
    · rw [hdown, slot_set_self _ _ _ hmlt]
    · rw [hdown, slot_set_self _ _ _ hmlt]
    · rw [hdown, slot_set_self _ _ _ hmlt]
    · intro sx sy hx hy hs hsx hsy hsend
      rw [touch_down_run env2 _ _ d w2 m sx sy rfl hm hx hy hs hsx hsy]
      split
      · simpa using hsend
      · rfl

/-- C7, at the full table holding the ids 1 and 2, for the touch-end of the id
2. -/
theorem touch_up_frees_reusable_slot_witness :
    (∃ c ∈ contacts_of (some instFull), c.id = 2) ∧
    ∃ k,
      (k < (contacts_of (some instFull)).length ∧
        (slot (contacts_of (some instFull)) k).id = 2 ∧
        ∀ j, j < k → (slot (contacts_of (some instFull)) j).id ≠ 2) ∧
      (slot (contacts_of
        (wlf_handle_touch_up envId (some instFull) (some ⟨2, 0, 0⟩) World.start).inst) k).id
        = 0 ∧
      contacts_of (wlf_handle_touch_down envId
        (wlf_handle_touch_up envId (some instFull) (some ⟨2, 0, 0⟩) World.start).inst
        (some ⟨9, 7, 8⟩) World.start).inst = [⟨1, 3, 4, false⟩, ⟨9, 7, 8, false⟩] ∧
      (wlf_handle_touch_down envId
        (wlf_handle_touch_up envId (some instFull) (some ⟨2, 0, 0⟩) World.start).inst
        (some ⟨9, 7, 8⟩) World.start).rc = some true := by
  obtain ⟨k, h1, h2, _⟩ := touch_up_frees_reusable_slot envId instFull
    ⟨[], false, [⟨1, 3, 4, false⟩, ⟨2, 5, 6, false⟩], true⟩ ⟨2, 0, 0⟩ World.start rfl
    (by decide)
  exact ⟨by decide, k, h1, h2, by decide, by decide⟩

/-- A `wlf_handle_touch_down` call that returns `TRUE` has populated the lowest
free slot, with the `emulate_mouse` flag set exactly when the touch channel is
absent. -/
theorem touch_down_success (env : Env) (i : freerdp) (wlf : wlfContext) (e : UwacTouch)
    (w : World) (hc : i.context = some wlf)
    (hok : (wlf_handle_touch_down env (some i) (some e) w).rc = some true) :
    ∃ k, first_slot (fun c => decide (c.id = 0)) wlf.contacts = some k ∧
      (wlf_handle_touch_down env (some i) (some e) w).inst =
        some (set_contacts i wlf (wlf.contacts.set k ⟨e.id, e.x, e.y, !wlf.rdpei⟩)) := by
  unfold wlf_handle_touch_down at hok ⊢
  simp only [hc] at hok ⊢
  cases hk : first_slot (fun c => decide (c.id = 0)) wlf.contacts with
  | none => simp [hk] at hok
  | some k =>
    refine ⟨k, rfl, ?_⟩
    simp only [hk] at hok ⊢
    repeat' split
    all_goals simp_all

/-- The run of `wlf_handle_touch_motion` that finds the contact at a position
other than the stored one, when the new position has no negative coordinate
and the scaler succeeds with values in range. -/
theorem touch_motion_run (env : Env) (i : freerdp) (wlf : wlfContext) (e : UwacTouch)
    (w : World) (k sx sy : Nat) (hc : i.context = some wlf)
    (hk : first_slot (fun c => decide (c.id = e.id)) wlf.contacts = some k)
    (hmoved : ¬ ((slot wlf.contacts k).pos_x = e.x ∧ (slot wlf.contacts k).pos_y = e.y))
    (hx : 0 ≤ e.x) (hy : 0 ≤ e.y)
    (hs : env.scale w.nscale e.x.toNat e.y.toNat = (true, sx, sy))
    (hsx : sx < INT32_MAX) (hsy : sy < INT32_MAX)
    (h16 : (slot wlf.contacts k).emulate_mouse = true →
      sx ≤ UINT16_MAX ∧ sy ≤ UINT16_MAX) :
    wlf_handle_touch_motion env (some i) (some e) w =
      if (slot wlf.contacts k).emulate_mouse = true then
        ⟨some (env.sendOk w.wire.length),
          some (set_contacts i wlf
            (wlf.contacts.set k { slot wlf.contacts k with pos_x := e.x, pos_y := e.y })),
          ⟨w.nscale + 1, w.wire ++ [WireEvent.mouse PTR_FLAGS_MOVE sx sy], w.touch⟩⟩
      else if wlf.rdpei = false then
        ⟨some false,
          some (set_contacts i wlf
            (wlf.contacts.set k { slot wlf.contacts k with pos_x := e.x, pos_y := e.y })),
          ⟨w.nscale + 1, w.wire, w.touch⟩⟩
      else
        ⟨some true,
          some (set_contacts i wlf
            (wlf.contacts.set k { slot wlf.contacts k with pos_x := e.x, pos_y := e.y })),
          ⟨w.nscale + 1, w.wire, w.touch ++ [TouchCall.TouchUpdate e.id sx sy]⟩⟩ := by
  have hsc := scale_signed_coordinates_eq env e.x e.y w true sx sy hx hy hs hsx hsy
  unfold wlf_handle_touch_motion
  simp only [hc, hk, hsc, if_neg hmoved]
  by_cases hem : (slot wlf.contacts k).emulate_mouse = true
  · obtain ⟨h1, h2⟩ := h16 hem
    have hle : ((sx : Int) ≤ (UINT16_MAX : Nat) ∧ (sy : Int) ≤ (UINT16_MAX : Nat)) := by
      constructor <;> exact_mod_cast ‹_›
    simp [hem, hle, freerdp_input_send_mouse_event]
    unfold UINT16_MAX at h1 h2
    omega
  · by_cases hr : wlf.rdpei = false
    · simp [hem, hr]
    · simp [hem, hr]

/-- C8: after a `wlf_handle_touch_down` call that returned `TRUE` for an id `t`
at `(x, y)` on a table in which no slot held `t` (so `t` is not 0), a
`wlf_handle_touch_motion` call for `t` at the same `(x, y)` returns `TRUE` with
no wire event, no scaling and no channel call and leaves the instance
unchanged; a motion call for `t` at a position that differs from `(x, y)` in
`x` or in `y`, with no negative coordinate, the scaler succeeding with values
in range and the send succeeding, returns `TRUE`, stores the new position in
the slot of the contact, and makes exactly one emission: one `PTR_FLAGS_MOVE`
mouse event at the scaled position when the touch channel is absent
(emulated mode), one touch-update forwarded to the channel otherwise. -/
theorem touch_motion_after_down (env : Env) (i : freerdp) (wlf : wlfContext)
    (e : UwacTouch) (w : World) (hc : i.context = some wlf)
    (hnew : ∀ c ∈ wlf.contacts, c.id ≠ e.id)
    (hok : (wlf_handle_touch_down env (some i) (some e) w).rc = some true) :
    (∀ (env2 : Env) (w2 : World),
      wlf_handle_touch_motion env2 (wlf_handle_touch_down env (some i) (some e) w).inst
          (some e) w2 =
        ⟨some true, (wlf_handle_touch_down env (some i) (some e) w).inst, w2⟩) ∧
    (∀ (env2 : Env) (w2 : World) (x2 y2 : Int) (sx sy : Nat),
      (x2 ≠ e.x ∨ y2 ≠ e.y) → 0 ≤ x2 → 0 ≤ y2 →
      env2.scale w2.nscale x2.toNat y2.toNat = (true, sx, sy) →
      sx < INT32_MAX → sy < INT32_MAX →
      (wlf.rdpei = false →
        sx ≤ UINT16_MAX ∧ sy ≤ UINT16_MAX ∧ env2.sendOk w2.wire.length = true) →
      ∃ k,
        (k < wlf.contacts.length ∧
          slot (contacts_of (wlf_handle_touch_down env (some i) (some e) w).inst) k
            = ⟨e.id, e.x, e.y, !wlf.rdpei⟩) ∧
        (wlf_handle_touch_motion env2 (wlf_handle_touch_down env (some i) (some e) w).inst
          (some ⟨e.id, x2, y2⟩) w2).rc = some true ∧
        contacts_of (wlf_handle_touch_motion env2
            (wlf_handle_touch_down env (some i) (some e) w).inst
            (some ⟨e.id, x2, y2⟩) w2).inst =
          (contacts_of (wlf_handle_touch_down env (some i) (some e) w).inst).set k
            ⟨e.id, x2, y2, !wlf.rdpei⟩ ∧
        (wlf_handle_touch_motion env2 (wlf_handle_touch_down env (some i) (some e) w).inst
            (some ⟨e.id, x2, y2⟩) w2).world =
          if wlf.rdpei = false
          then ⟨w2.nscale + 1, w2.wire ++ [WireEvent.mouse PTR_FLAGS_MOVE sx sy], w2.touch⟩
          else ⟨w2.nscale + 1, w2.wire, w2.touch ++ [TouchCall.TouchUpdate e.id sx sy]⟩) := by
  obtain ⟨k, hk, hinst⟩ := touch_down_success env i wlf e w hc hok
  have hklt := (first_slot_eq_some _ _ _ hk).1
  have hfs : first_slot (fun c => decide (c.id = e.id))
      (wlf.contacts.set k ⟨e.id, e.x, e.y, !wlf.rdpei⟩) = some k :=
    first_slot_set_new _ _ k _ hklt (by simp) (fun d hd => by simpa using hnew d hd)
  have hslot : slot (wlf.contacts.set k ⟨e.id, e.x, e.y, !wlf.rdpei⟩) k
      = ⟨e.id, e.x, e.y, !wlf.rdpei⟩ := slot_set_self _ _ _ hklt
  rw [hinst]
  constructor
  · intro env2 w2
    unfold wlf_handle_touch_motion
    simp [set_contacts_context, hfs, hslot]
  · intro env2 w2 x2 y2 sx sy hdiff hx hy hs hsx hsy hem
    have hmoved : ¬ ((slot (wlf.contacts.set k ⟨e.id, e.x, e.y, !wlf.rdpei⟩) k).pos_x = x2 ∧
        (slot (wlf.contacts.set k ⟨e.id, e.x, e.y, !wlf.rdpei⟩) k).pos_y = y2) := by
      rw [hslot]
      simp only []
      rintro ⟨h1, h2⟩
      rcases hdiff with h | h
      · exact h h1.symm
      · exact h h2.symm
    have hrun := touch_motion_run env2
      (set_contacts i wlf (wlf.contacts.set k ⟨e.id, e.x, e.y, !wlf.rdpei⟩))
      { wlf with contacts := wlf.contacts.set k ⟨e.id, e.x, e.y, !wlf.rdpei⟩ }
      ⟨e.id, x2, y2⟩ w2 k sx sy rfl hfs hmoved hx hy hs hsx hsy
      (by
        rw [hslot]
        intro h
        have hr : wlf.rdpei = false := by simpa using h
        exact ⟨(hem hr).1, (hem hr).2.1⟩)
    rw [hrun, hslot]
    refine ⟨k, ⟨hklt, ?_⟩, ?_⟩
    · simp only [contacts_of]
      exact hslot
    · by_cases hr : wlf.rdpei = false
      · simp [hr, (hem hr).2.2]
      · simp [hr]

/-- C8, at a table without touch channel: a touch-begin of the id 5 at
`(10, 20)`, then a motion at `(10, 20)` and a motion at `(11, 20)`. -/
theorem touch_motion_after_down_witness :
    ((∀ c ∈ contacts_of (some instNoChannel), c.id ≠ 5) ∧
      (wlf_handle_touch_down envId (some instNoChannel) (some ⟨5, 10, 20⟩) World.start).rc
        = some true) ∧
    wlf_handle_touch_motion envId
        (wlf_handle_touch_down envId (some instNoChannel) (some ⟨5, 10, 20⟩) World.start).inst
        (some ⟨5, 10, 20⟩) World.start =
      ⟨some true,
        (wlf_handle_touch_down envId (some instNoChannel) (some ⟨5, 10, 20⟩) World.start).inst,
        World.start⟩ ∧
    (wlf_handle_touch_motion envId
        (wlf_handle_touch_down envId (some instNoChannel) (some ⟨5, 10, 20⟩) World.start).inst
        (some ⟨5, 11, 20⟩) World.start).world =
      ⟨1, [WireEvent.mouse PTR_FLAGS_MOVE 11 20], []⟩ := by
  have h := touch_motion_after_down envId instNoChannel
    ⟨[], false, [⟨0, 0, 0, false⟩, ⟨0, 0, 0, false⟩], false⟩ ⟨5, 10, 20⟩ World.start rfl
    (by decide) (by decide)
  refine ⟨⟨by decide, by decide⟩, h.1 envId World.start, ?_⟩
  obtain ⟨k, _, _, _, hw⟩ := h.2 envId World.start 11 20 11 20 (by decide) (by decide)
    (by decide) rfl (by decide) (by decide) (fun _ => ⟨by decide, by decide, rfl⟩)
  rw [hw]
  decide

/-- C9 (amended): for every `wlf_handle_touch_down` call that finds a free slot
and whose coordinate scaling succeeds (`scale_signed_coordinates` returns
`TRUE`), the slot populated with the id and the position of the event has,
after the call and whatever the send returns, the `emulate_mouse` flag true if
and only if the touch channel is absent at that call. -/
theorem touch_down_emulate_flag (env : Env) (i : freerdp) (wlf : wlfContext)
    (e : UwacTouch) (w : World) (k : Nat) (sx sy : Int) (hc : i.context = some wlf)
    (hk : first_slot (fun c => decide (c.id = 0)) wlf.contacts = some k)
    (hscale : (scale_signed_coordinates env e.x e.y w).1 = some (true, sx, sy)) :
    (slot (contacts_of (wlf_handle_touch_down env (some i) (some e) w).inst) k).id = e.id ∧
    (slot (contacts_of (wlf_handle_touch_down env (some i) (some e) w).inst) k).pos_x = e.x ∧
    (slot (contacts_of (wlf_handle_touch_down env (some i) (some e) w).inst) k).pos_y = e.y ∧
    ((slot (contacts_of (wlf_handle_touch_down env (some i) (some e) w).inst) k).emulate_mouse
        = true ↔ wlf.rdpei = false) := by
  have hklt := (first_slot_eq_some _ _ _ hk).1
  have hflag : touch_down_emulate env wlf e w = !wlf.rdpei := by
    simp [touch_down_emulate, hscale]
  rw [touch_down_contacts env i wlf e w hc]
  simp only [hk]
  rw [slot_set_self _ _ _ hklt, hflag]
  simp

/-- C9, at a table of two free slots without touch channel, with the identity
scaler. -/
theorem touch_down_emulate_flag_witness :
    (first_slot (fun c => decide (c.id = 0)) (contacts_of (some instNoChannel)) = some 0 ∧
      (scale_signed_coordinates envId 10 20 World.start).1 = some (true, 10, 20)) ∧
    ((slot (contacts_of (wlf_handle_touch_down envId (some instNoChannel)
        (some ⟨5, 10, 20⟩) World.start).inst) 0).emulate_mouse = true ↔
      (false = false)) := by
  have h := touch_down_emulate_flag envId instNoChannel
    ⟨[], false, [⟨0, 0, 0, false⟩, ⟨0, 0, 0, false⟩], false⟩ ⟨5, 10, 20⟩ World.start 0
    10 20 rfl (by decide) (by decide)
  exact ⟨⟨by decide, by decide⟩, h.2.2.2⟩

/-- C9 as stated fails when the scaling fails: without touch channel, the call
populates slot 0 with the id and the position of the event and returns `FALSE`
with the `emulate_mouse` flag of the slot still false. -/
theorem touch_down_scale_failure_counterexample :
    first_slot (fun c => decide (c.id = 0)) (contacts_of (some instNoChannel)) = some 0 ∧
    instNoChannel.context.map (fun wlf => wlf.rdpei) = some false ∧
    wlf_handle_touch_down envScaleFails (some instNoChannel) (some ⟨5, 10, 20⟩) World.start =
      ⟨some false,
        some (set_contacts instNoChannel ⟨[], false, [], false⟩
          [⟨5, 10, 20, false⟩, ⟨0, 0, 0, false⟩]),
        ⟨1, [], []⟩⟩ := by
  decide

/-! ## Properties of the focus synchronisation -/

/-- C10 (amended): for every session state with the input handle present,
`wlf_keyboard_enter` returns `TRUE` without any emission, and the next
`wlf_keyboard_modifiers` call sends one focus-in event carrying the lock-state
bitmask (`KBD_SYNC_CAPS_LOCK` set iff caps is active, `KBD_SYNC_NUM_LOCK` set
iff num is active) and then, only when that send succeeded, one mouse event
with flags `PTR_FLAGS_MOVE` at `(0, 0)`; it clears the focus-pending flag and
returns `TRUE` iff both sends succeeded.  Every further
`wlf_keyboard_modifiers` call before the next focus-gain returns `TRUE` with no
emission and leaves the instance unchanged. -/
theorem focus_sync_once (env : Env) (i : freerdp) (wlf : wlfContext) (w0 w : World)
    (e : UwacKeyboardModifiersEvent) (hin : i.input = true) (hc : i.context = some wlf) :
    wlf_keyboard_enter (some i) true w0 = ⟨some true, some (set_focusing i wlf true), w0⟩ ∧
    ∃ syncFlags : Nat,
      (syncFlags &&& KBD_SYNC_CAPS_LOCK ≠ 0 ↔ e.modifiers &&& UWAC_MOD_CAPS_MASK ≠ 0) ∧
      (syncFlags &&& KBD_SYNC_NUM_LOCK ≠ 0 ↔ e.modifiers &&& UWAC_MOD_NUM_MASK ≠ 0) ∧
      wlf_keyboard_modifiers env (wlf_keyboard_enter (some i) true w0).inst (some e) w =
        ⟨some (env.sendOk w.wire.length && env.sendOk (w.wire.length + 1)),
          some (set_focusing i wlf false),
          ⟨w.nscale,
            w.wire ++ (WireEvent.focus_in syncFlags ::
              (if env.sendOk w.wire.length = true
                then [WireEvent.mouse PTR_FLAGS_MOVE 0 0] else [])),
            w.touch⟩⟩ ∧
      ∀ (env2 : Env) (e2 : UwacKeyboardModifiersEvent) (w2 : World),
        wlf_keyboard_modifiers env2 (some (set_focusing i wlf false)) (some e2) w2 =
          ⟨some true, some (set_focusing i wlf false), w2⟩ := by
  have henter : wlf_keyboard_enter (some i) true w0
      = ⟨some true, some (set_focusing i wlf true), w0⟩ := by
    simp [wlf_keyboard_enter, hin, hc]
  refine ⟨henter, ?_⟩
  rw [henter]
  have hflags : ∀ a b : Prop, [Decidable a] → [Decidable b] →
      (((if b then ((if a then (0 ||| KBD_SYNC_CAPS_LOCK) else 0) ||| KBD_SYNC_NUM_LOCK)
          else (if a then (0 ||| KBD_SYNC_CAPS_LOCK) else 0)) &&& KBD_SYNC_CAPS_LOCK ≠ 0 ↔ a) ∧
       ((if b then ((if a then (0 ||| KBD_SYNC_CAPS_LOCK) else 0) ||| KBD_SYNC_NUM_LOCK)
          else (if a then (0 ||| KBD_SYNC_CAPS_LOCK) else 0)) &&& KBD_SYNC_NUM_LOCK ≠ 0 ↔ b)) := by
    intro a b _ _
    by_cases ha : a <;> by_cases hb : b <;> simp [ha, hb] <;> decide
  obtain ⟨h1, h2⟩ := hflags (e.modifiers &&& UWAC_MOD_CAPS_MASK ≠ 0)
    (e.modifiers &&& UWAC_MOD_NUM_MASK ≠ 0)
  refine ⟨_, h1, h2, ?_, ?_⟩
  · cases hs : env.sendOk w.wire.length <;>
      simp [wlf_keyboard_modifiers, hin, set_focusing, freerdp_input_send_focus_in_event,
        freerdp_input_send_mouse_event, hs]
  · intro env2 e2 w2
    simp [wlf_keyboard_modifiers, hin, set_focusing]

/-- C10, at a focus-gain followed by two modifier notifications with caps
active, every send succeeding: the focus-in and move pair is emitted by the
first notification only. -/
theorem focus_sync_once_witness :
    wlf_keyboard_modifiers envId
        (wlf_keyboard_enter (some instAllFree) true World.start).inst
        (some ⟨UWAC_MOD_CAPS_MASK⟩) World.start =
      ⟨some true, some (set_focusing instAllFree
          ⟨[], false, [⟨0, 0, 0, false⟩, ⟨0, 0, 0, false⟩], true⟩ false),
        ⟨0, [WireEvent.focus_in KBD_SYNC_CAPS_LOCK, WireEvent.mouse PTR_FLAGS_MOVE 0 0], []⟩⟩ ∧
    wlf_keyboard_modifiers envId
        (wlf_keyboard_modifiers envId
          (wlf_keyboard_enter (some instAllFree) true World.start).inst
          (some ⟨UWAC_MOD_CAPS_MASK⟩) World.start).inst
        (some ⟨UWAC_MOD_CAPS_MASK⟩) World.start =
      ⟨some true, some (set_focusing instAllFree
          ⟨[], false, [⟨0, 0, 0, false⟩, ⟨0, 0, 0, false⟩], true⟩ false),
        World.start⟩ := by
  obtain ⟨_, _, _, _, h3, h4⟩ := focus_sync_once envId instAllFree
    ⟨[], false, [⟨0, 0, 0, false⟩, ⟨0, 0, 0, false⟩], true⟩ World.start World.start
    ⟨UWAC_MOD_CAPS_MASK⟩ rfl rfl
  constructor
  · decide
  · rw [h3]
    exact h4 envId ⟨UWAC_MOD_CAPS_MASK⟩ World.start

/-- C10 as stated fails when the focus-in send fails: after a focus-gain the
modifier notification sends the focus-in event only, no mouse event follows,
and the call returns `FALSE`. -/
theorem focus_in_send_failure_counterexample :
    wlf_keyboard_modifiers envSendFails
        (wlf_keyboard_enter (some instAllFree) true World.start).inst
        (some ⟨0⟩) World.start =
      ⟨some false, some (set_focusing instAllFree
          ⟨[], false, [⟨0, 0, 0, false⟩, ⟨0, 0, 0, false⟩], true⟩ false),
        ⟨0, [WireEvent.focus_in 0], []⟩⟩ := by
  decide

/-! ## Properties of the button translator -/

/-- The value of a scaled coordinate that passed the range assertion is kept
by the cast to `UINT16`. -/
theorem uint16_cast_id (n : Nat) (h : n ≤ UINT16_MAX) : n % 65536 = n := by
  unfold UINT16_MAX at h
  omega

/-- The run of `wlf_handle_pointer_buttons` on a primary button: one mouse
event with the flags of the button, joined with the press bit when pressed. -/
theorem pointer_buttons_primary (env : Env) (i : freerdp) (e : UwacPointerButtonEvent)
    (w : World) (xs ys bflag : Nat) (hin : i.input = true)
    (hscale : env.scale w.nscale e.x e.y = (true, xs, ys))
    (hx : xs ≤ UINT16_MAX) (hy : ys ≤ UINT16_MAX)
    (hb : (e.button = BTN_LEFT ∧ bflag = PTR_FLAGS_BUTTON1) ∨
      (e.button = BTN_RIGHT ∧ bflag = PTR_FLAGS_BUTTON2) ∨
      (e.button = BTN_MIDDLE ∧ bflag = PTR_FLAGS_BUTTON3)) :
    wlf_handle_pointer_buttons env (some i) (some e) w =
      ⟨some (env.sendOk w.wire.length), some i,
        ⟨w.nscale + 1,
          w.wire ++ [WireEvent.mouse
            (if e.state = WL_POINTER_BUTTON_STATE_PRESSED
              then PTR_FLAGS_DOWN ||| bflag else bflag) xs ys],
          w.touch⟩⟩ := by
  have hxy : xs ≤ UINT16_MAX ∧ ys ≤ UINT16_MAX := ⟨hx, hy⟩
  have d1 : (PTR_FLAGS_DOWN ||| PTR_FLAGS_BUTTON1) &&& (0xFFFF - PTR_FLAGS_DOWN) ≠ 0 := by
    decide
  have d2 : (PTR_FLAGS_DOWN ||| PTR_FLAGS_BUTTON2) &&& (0xFFFF - PTR_FLAGS_DOWN) ≠ 0 := by
    decide
  have d3 : (PTR_FLAGS_DOWN ||| PTR_FLAGS_BUTTON3) &&& (0xFFFF - PTR_FLAGS_DOWN) ≠ 0 := by
    decide
  have u1 : (0 ||| PTR_FLAGS_BUTTON1) &&& (0xFFFF - PTR_FLAGS_DOWN) ≠ 0 := by decide
  have u2 : (0 ||| PTR_FLAGS_BUTTON2) &&& (0xFFFF - PTR_FLAGS_DOWN) ≠ 0 := by decide
  have u3 : (0 ||| PTR_FLAGS_BUTTON3) &&& (0xFFFF - PTR_FLAGS_DOWN) ≠ 0 := by decide
  have v1 : PTR_FLAGS_BUTTON1 &&& (0xFFFF - PTR_FLAGS_DOWN) ≠ 0 := by decide
  have v2 : PTR_FLAGS_BUTTON2 &&& (0xFFFF - PTR_FLAGS_DOWN) ≠ 0 := by decide
  have v3 : PTR_FLAGS_BUTTON3 &&& (0xFFFF - PTR_FLAGS_DOWN) ≠ 0 := by decide
  have z1 : 0 ||| PTR_FLAGS_BUTTON1 = PTR_FLAGS_BUTTON1 := by decide
  have z2 : 0 ||| PTR_FLAGS_BUTTON2 = PTR_FLAGS_BUTTON2 := by decide
  have z3 : 0 ||| PTR_FLAGS_BUTTON3 = PTR_FLAGS_BUTTON3 := by decide
  have n1 : BTN_RIGHT ≠ BTN_LEFT := by decide
  have n2 : BTN_MIDDLE ≠ BTN_LEFT := by decide
  have n3 : BTN_MIDDLE ≠ BTN_RIGHT := by decide
  unfold wlf_handle_pointer_buttons
  simp only [hin, wlf_scale_coordinates, hscale, freerdp_input_send_mouse_event,
    uint16_cast_id xs hx, uint16_cast_id ys hy]
  rcases hb with ⟨hbt, rfl⟩ | ⟨hbt, rfl⟩ | ⟨hbt, rfl⟩ <;>
    by_cases hp : e.state = WL_POINTER_BUTTON_STATE_PRESSED <;>
    simp [hbt, hp, hxy, d1, d2, d3, u1, u2, u3, v1, v2, v3, z1, z2, z3, n1, n2, n3]

/-- The run of `wlf_handle_pointer_buttons` on an extended button: one extended
mouse event with the flags of the button, joined with the press bit when
pressed. -/
theorem pointer_buttons_extended (env : Env) (i : freerdp) (e : UwacPointerButtonEvent)
    (w : World) (xs ys bflag : Nat) (hin : i.input = true)
    (hscale : env.scale w.nscale e.x e.y = (true, xs, ys))
    (hx : xs ≤ UINT16_MAX) (hy : ys ≤ UINT16_MAX)
    (hb : (e.button = BTN_SIDE ∧ bflag = PTR_XFLAGS_BUTTON1) ∨
      (e.button = BTN_EXTRA ∧ bflag = PTR_XFLAGS_BUTTON2)) :
    wlf_handle_pointer_buttons env (some i) (some e) w =
      ⟨some (env.sendOk w.wire.length), some i,
        ⟨w.nscale + 1,
          w.wire ++ [WireEvent.extended_mouse
            (if e.state = WL_POINTER_BUTTON_STATE_PRESSED
              then PTR_XFLAGS_DOWN ||| bflag else bflag) xs ys],
          w.touch⟩⟩ := by
  have hxy : xs ≤ UINT16_MAX ∧ ys ≤ UINT16_MAX := ⟨hx, hy⟩
  have p0 : PTR_FLAGS_DOWN &&& (0xFFFF - PTR_FLAGS_DOWN) = 0 := by decide
  have p1 : (0 : Nat) &&& (0xFFFF - PTR_FLAGS_DOWN) = 0 := by decide
  have d1 : (PTR_XFLAGS_DOWN ||| PTR_XFLAGS_BUTTON1) &&& (0xFFFF - PTR_XFLAGS_DOWN) ≠ 0 := by
    decide
  have d2 : (PTR_XFLAGS_DOWN ||| PTR_XFLAGS_BUTTON2) &&& (0xFFFF - PTR_XFLAGS_DOWN) ≠ 0 := by
    decide
  have v1 : PTR_XFLAGS_BUTTON1 &&& (0xFFFF - PTR_XFLAGS_DOWN) ≠ 0 := by decide
  have v2 : PTR_XFLAGS_BUTTON2 &&& (0xFFFF - PTR_XFLAGS_DOWN) ≠ 0 := by decide
  have n1 : BTN_SIDE ≠ BTN_LEFT := by decide
  have n2 : BTN_SIDE ≠ BTN_RIGHT := by decide
  have n3 : BTN_SIDE ≠ BTN_MIDDLE := by decide
  have n4 : BTN_EXTRA ≠ BTN_LEFT := by decide
  have n5 : BTN_EXTRA ≠ BTN_RIGHT := by decide
  have n6 : BTN_EXTRA ≠ BTN_MIDDLE := by decide
  have n7 : BTN_EXTRA ≠ BTN_SIDE := by decide
  unfold wlf_handle_pointer_buttons
  simp only [hin, wlf_scale_coordinates, hscale, freerdp_input_send_extended_mouse_event,
    uint16_cast_id xs hx, uint16_cast_id ys hy]
  rcases hb with ⟨hbt, rfl⟩ | ⟨hbt, rfl⟩ <;>
    by_cases hp : e.state = WL_POINTER_BUTTON_STATE_PRESSED <;>
    simp [hbt, hp, hxy, p0, p1, d1, d2, v1, v2, n1, n2, n3, n4, n5, n6, n7]

/-- C11: for every `wlf_handle_pointer_buttons` call with the handles present,
the scaler succeeding with `(xs, ys)` and the range assertion on the scaled
position holding, a left, right or middle button sends exactly one primary
mouse event and no extended one, with the flags `PTR_FLAGS_BUTTON1`,
`PTR_FLAGS_BUTTON2` or `PTR_FLAGS_BUTTON3`, joined with `PTR_FLAGS_DOWN` iff the
state is pressed; a side or extra button sends exactly one extended mouse event
and no primary one, with the flags `PTR_XFLAGS_BUTTON1` or `PTR_XFLAGS_BUTTON2`,
joined with `PTR_XFLAGS_DOWN` iff pressed; the event is at `(xs, ys)` and the
result of the call is the result of the send, so the trailing `return FALSE`
is never reached. -/
theorem pointer_buttons_translation (env : Env) (i : freerdp)
    (e : UwacPointerButtonEvent) (w : World) (xs ys : Nat) (hin : i.input = true)
    (hscale : env.scale w.nscale e.x e.y = (true, xs, ys))
    (hx : xs ≤ UINT16_MAX) (hy : ys ≤ UINT16_MAX) :
    (∀ bflag, (e.button = BTN_LEFT ∧ bflag = PTR_FLAGS_BUTTON1) ∨
        (e.button = BTN_RIGHT ∧ bflag = PTR_FLAGS_BUTTON2) ∨
        (e.button = BTN_MIDDLE ∧ bflag = PTR_FLAGS_BUTTON3) →
      wlf_handle_pointer_buttons env (some i) (some e) w =
        ⟨some (env.sendOk w.wire.length), some i,
          ⟨w.nscale + 1,
            w.wire ++ [WireEvent.mouse
              (if e.state = WL_POINTER_BUTTON_STATE_PRESSED
                then PTR_FLAGS_DOWN ||| bflag else bflag) xs ys],
            w.touch⟩⟩) ∧
    (∀ bflag, (e.button = BTN_SIDE ∧ bflag = PTR_XFLAGS_BUTTON1) ∨
        (e.button = BTN_EXTRA ∧ bflag = PTR_XFLAGS_BUTTON2) →
      wlf_handle_pointer_buttons env (some i) (some e) w =
        ⟨some (env.sendOk w.wire.length), some i,
          ⟨w.nscale + 1,
            w.wire ++ [WireEvent.extended_mouse
              (if e.state = WL_POINTER_BUTTON_STATE_PRESSED
                then PTR_XFLAGS_DOWN ||| bflag else bflag) xs ys],
            w.touch⟩⟩) :=
  ⟨fun bflag hb => pointer_buttons_primary env i e w xs ys bflag hin hscale hx hy hb,
    fun bflag hb => pointer_buttons_extended env i e w xs ys bflag hin hscale hx hy hb⟩

/-- C11, at a pressed right button and a released extra button at
`(30, 40)`. -/
theorem pointer_buttons_translation_witness :
    (envId.scale World.start.nscale 30 40 = (true, 30, 40) ∧
      30 ≤ UINT16_MAX ∧ 40 ≤ UINT16_MAX) ∧
    wlf_handle_pointer_buttons envId (some instPlain)
        (some ⟨30, 40, BTN_RIGHT, WL_POINTER_BUTTON_STATE_PRESSED⟩) World.start =
      ⟨some true, some instPlain, ⟨1, [WireEvent.mouse 0xA000 30 40], []⟩⟩ ∧
    wlf_handle_pointer_buttons envId (some instPlain)
        (some ⟨30, 40, BTN_EXTRA, 0⟩) World.start =
      ⟨some true, some instPlain, ⟨1, [WireEvent.extended_mouse 0x0002 30 40], []⟩⟩ := by
  refine ⟨⟨rfl, by decide, by decide⟩, ?_, ?_⟩
  · rw [(pointer_buttons_translation envId instPlain
      ⟨30, 40, BTN_RIGHT, WL_POINTER_BUTTON_STATE_PRESSED⟩ World.start 30 40 rfl rfl
      (by decide) (by decide)).1 PTR_FLAGS_BUTTON2 (Or.inr (Or.inl ⟨rfl, rfl⟩))]
    decide
  · rw [(pointer_buttons_translation envId instPlain ⟨30, 40, BTN_EXTRA, 0⟩ World.start
      30 40 rfl rfl (by decide) (by decide)).2 PTR_XFLAGS_BUTTON2 (Or.inr ⟨rfl, rfl⟩)]
    decide

/-- C15: for every button code other than left, right, middle, side and extra
and either press state, `wlf_handle_pointer_buttons` with the handles present
and the scaler succeeding returns `TRUE` and sends neither a primary nor an
extended mouse event. -/
theorem pointer_buttons_unknown (env : Env) (i : freerdp) (e : UwacPointerButtonEvent)
    (w : World) (hin : i.input = true)
    (hscale : (env.scale w.nscale e.x e.y).1 = true)
    (hb : e.button ≠ BTN_LEFT ∧ e.button ≠ BTN_RIGHT ∧ e.button ≠ BTN_MIDDLE ∧
      e.button ≠ BTN_SIDE ∧ e.button ≠ BTN_EXTRA) :
    wlf_handle_pointer_buttons env (some i) (some e) w =
      ⟨some true, some i, ⟨w.nscale + 1, w.wire, w.touch⟩⟩ := by
  obtain ⟨h1, h2, h3, h4, h5⟩ := hb
  simp [wlf_handle_pointer_buttons, hin, wlf_scale_coordinates, hscale, h1, h2, h3, h4, h5]

/-- C15, at the button code `0x115` pressed at `(30, 40)`. -/
theorem pointer_buttons_unknown_witness :
    ((envId.scale World.start.nscale 30 40).1 = true ∧
      (0x115 ≠ BTN_LEFT ∧ 0x115 ≠ BTN_RIGHT ∧ 0x115 ≠ BTN_MIDDLE ∧ 0x115 ≠ BTN_SIDE ∧
        0x115 ≠ BTN_EXTRA)) ∧
    wlf_handle_pointer_buttons envId (some instPlain)
        (some ⟨30, 40, 0x115, WL_POINTER_BUTTON_STATE_PRESSED⟩) World.start =
      ⟨some true, some instPlain, ⟨1, [], []⟩⟩ :=
  ⟨⟨rfl, by decide⟩,
    pointer_buttons_unknown envId instPlain ⟨30, 40, 0x115, WL_POINTER_BUTTON_STATE_PRESSED⟩
      World.start rfl rfl (by decide)⟩

/-! ## Further properties of the wheel quantizer -/

/-- The loop sends nothing for the magnitude zero. -/
theorem wheel_loop_zero (env : Env) (flags x y : Nat) (w : World) :
    wheel_loop env flags x y 0 w = (true, w) := by
  rw [wheel_loop]
  simp

/-- A valid axis has base flags. -/
theorem wheel_flags_valid (axis : Nat) (v : Int)
    (hax : axis = WL_POINTER_AXIS_VERTICAL_SCROLL ∨
      axis = WL_POINTER_AXIS_HORIZONTAL_SCROLL) :
    ∃ flags, wheel_flags axis v = some flags := by
  have hVH : WL_POINTER_AXIS_HORIZONTAL_SCROLL ≠ WL_POINTER_AXIS_VERTICAL_SCROLL := by
    decide
  rcases hax with rfl | rfl
  · exact ⟨_, if_pos rfl⟩
  · unfold wheel_flags
    rw [if_neg hVH, if_pos rfl]
    exact ⟨_, rfl⟩

/-- With the input handle present `wlf_handle_wheel` returns: no assertion
fails. -/
theorem wlf_handle_wheel_returns (env : Env) (i : freerdp) (x y axis : Nat) (v : Int)
    (w : World) (hin : i.input = true) :
    ∃ b, (wlf_handle_wheel env (some i) x y axis v w).1 = some b := by
  unfold wlf_handle_wheel
  simp only [hin]
  repeat' split
  all_goals simp_all

/-- Every call of `wlf_handle_wheel` that passes its assertions makes exactly
one scaling call and no touch channel call. -/
theorem wlf_handle_wheel_nscale (env : Env) (i : freerdp) (x y axis : Nat) (v : Int)
    (w : World) (hin : i.input = true) :
    (wlf_handle_wheel env (some i) x y axis v w).2.nscale = w.nscale + 1 := by
  have hloop : ∀ (flags sx sy a : Nat) (w1 : World),
      (wheel_loop env flags sx sy a w1).2.nscale = w1.nscale := by
    intro flags sx sy a
    induction a using Nat.strong_induction_on with
    | _ a ih =>
      intro w1
      rw [wheel_loop]
      by_cases ha : a > 0
      · simp only [ha, dite_true]
        split
        · simp [freerdp_input_send_mouse_event]
        · rw [ih _ (by have := wheel_cval_pos ha; have := wheel_cval_le a; omega)]
          simp [freerdp_input_send_mouse_event]
      · simp [ha]
  unfold wlf_handle_wheel
  simp only [hin]
  repeat' split
  all_goals simp_all [wlf_scale_coordinates]

/-- The quantizer sends nothing for the delta zero, whatever the scaler
returns and whatever the axis is. -/
theorem wlf_handle_wheel_zero_wire (env : Env) (inst : Option freerdp) (x y axis : Nat)
    (w : World) : (wlf_handle_wheel env inst x y axis 0 w).2.wire = w.wire := by
  unfold wlf_handle_wheel
  simp only [Int.natAbs_zero, wheel_loop_zero]
  repeat' split
  all_goals simp_all [wlf_scale_coordinates]

/-- The number of chunks of a magnitude is its quotient by 255, rounded up. -/
theorem wheel_chunks_length (a : Nat) : (wheel_chunks a).length = (a + 254) / 255 := by
  rcases Nat.eq_zero_or_pos a with h0 | hpos
  · subst h0; simp [wheel_chunks_zero]
  · rw [wheel_chunks_eq_spec a hpos]
    unfold spec_chunks
    simp only [List.length_append, List.length_replicate, List.length_singleton]
    omega

/-- When the sends number `1` to `k - 1` of the loop succeed and the send
number `k` fails, the loop returns `false` after the first `k` events of the
complete run. -/
theorem wheel_loop_partial (env : Env) (flags x y : Nat) (a : Nat) (w : World) (k : Nat)
    (hk1 : 1 ≤ k) (hk : k ≤ (wheel_chunks a).length)
    (hok : ∀ j, j < k - 1 → env.sendOk (w.wire.length + j) = true)
    (hfail : env.sendOk (w.wire.length + (k - 1)) = false) :
    wheel_loop env flags x y a w =
      (false, ⟨w.nscale, w.wire ++ (mouse_events (x % 65536) (y % 65536)
        ((wheel_chunks a).map (wheel_cflags flags))).take k, w.touch⟩) := by
  induction a using Nat.strong_induction_on generalizing w k with
  | _ a ih =>
    rcases Nat.eq_zero_or_pos a with h0 | hpos
    · subst h0
      rw [wheel_chunks_zero] at hk
      simp at hk
      omega
    · have hlt : a - wheel_cval a < a := by
        have := wheel_cval_pos hpos; have := wheel_cval_le a; omega
      rw [wheel_chunks_pos hpos] at hk ⊢
      rw [wheel_loop]
      simp only [hpos, dite_true, freerdp_input_send_mouse_event]
      by_cases hk' : k = 1
      · subst hk'
        have hf : env.sendOk w.wire.length = false := by simpa using hfail
        simp [hf, mouse_events]
      · have h0 : env.sendOk w.wire.length = true := by
          have := hok 0 (by omega)
          simpa using this
        rw [if_neg (by simp [h0])]
        rw [ih _ hlt _ (k - 1) (by omega) (by simp at hk; omega)
          (by
            intro j hj
            have := hok (j + 1) (by omega)
            simpa [Nat.add_assoc, Nat.add_comm 1 j] using this)
          (by
            have e : w.wire.length + (k - 1) = w.wire.length + 1 + (k - 1 - 1) := by omega
            rw [e] at hfail
            simpa using hfail)]
        have hk2 : k = (k - 1) + 1 := by omega
        conv_rhs => rw [hk2]
        simp [mouse_events, List.take_succ_cons]

/-- C14: for the delta 0 on the vertical or the horizontal axis, with the input
handle present and the coordinate scaling succeeding, `wlf_handle_wheel`
returns `TRUE` and sends no wire event. -/
theorem wheel_zero_delta (env : Env) (i : freerdp) (x y axis : Nat) (w : World)
    (hin : i.input = true)
    (hax : axis = WL_POINTER_AXIS_VERTICAL_SCROLL ∨
      axis = WL_POINTER_AXIS_HORIZONTAL_SCROLL)
    (hscale : (env.scale w.nscale x y).1 = true) :
    wlf_handle_wheel env (some i) x y axis 0 w =
      (some true, ⟨w.nscale + 1, w.wire, w.touch⟩) := by
  obtain ⟨flags, hflags⟩ := wheel_flags_valid axis 0 hax
  simp [wlf_handle_wheel, hin, wlf_scale_coordinates, hscale, hflags, wheel_loop_zero]

/-- C14, on the horizontal axis at `(3, 4)`. -/
theorem wheel_zero_delta_witness :
    (envId.scale World.start.nscale 3 4).1 = true ∧
    wlf_handle_wheel envId (some instPlain) 3 4 WL_POINTER_AXIS_HORIZONTAL_SCROLL 0
        World.start = (some true, ⟨1, [], []⟩) :=
  ⟨rfl, wheel_zero_delta envId instPlain 3 4 WL_POINTER_AXIS_HORIZONTAL_SCROLL World.start
    rfl (Or.inr rfl) rfl⟩

/-- C17: for every delta `v` on a valid axis, with the input handle present and
the scaling succeeding, if the first `k - 1` chunk sends succeed and the send
number `k` fails (`1 ≤ k ≤ ceil (|v| / 255)`, so that `v` is not zero), then
`wlf_handle_wheel` returns `FALSE` having attempted exactly `k` sends: the
first `k` of the `ceil (|v| / 255)` events of the run in which every send
succeeds, in the same order and with the same flags and position, and no send
after the failing one. -/
theorem wheel_partial_emission (env env2 : Env) (i : freerdp) (x y axis : Nat) (v : Int)
    (w : World) (k : Nat) (hin : i.input = true)
    (hax : axis = WL_POINTER_AXIS_VERTICAL_SCROLL ∨
      axis = WL_POINTER_AXIS_HORIZONTAL_SCROLL)
    (hscale : (env.scale w.nscale x y).1 = true)
    (hsame : env2.scale w.nscale x y = env.scale w.nscale x y)
    (hall : ∀ j, env2.sendOk j = true)
    (hk1 : 1 ≤ k) (hk : k ≤ (v.natAbs + 254) / 255)
    (hok : ∀ j, j < k - 1 → env.sendOk (w.wire.length + j) = true)
    (hfail : env.sendOk (w.wire.length + (k - 1)) = false) :
    ∃ evs : List WireEvent,
      evs.length = (v.natAbs + 254) / 255 ∧
      wlf_handle_wheel env2 (some i) x y axis v w =
        (some true, ⟨w.nscale + 1, w.wire ++ evs, w.touch⟩) ∧
      wlf_handle_wheel env (some i) x y axis v w =
        (some false, ⟨w.nscale + 1, w.wire ++ evs.take k, w.touch⟩) ∧
      (evs.take k).length = k := by
  obtain ⟨flags, hflags⟩ := wheel_flags_valid axis v hax
  have hlen : (wheel_chunks v.natAbs).length = (v.natAbs + 254) / 255 :=
    wheel_chunks_length _
  have hevlen : (mouse_events ((env.scale w.nscale x y).2.1 % 65536)
      ((env.scale w.nscale x y).2.2 % 65536)
      ((wheel_chunks v.natAbs).map (wheel_cflags flags))).length
        = (v.natAbs + 254) / 255 := by
    simp [mouse_events, hlen]
  refine ⟨_, hevlen, ?_, ?_, ?_⟩
  · rw [wlf_handle_wheel_all_ok env2 i x y axis v w flags hin (by rw [hsame, hscale]) hall
      hflags, hsame]
  · have hpart := wheel_loop_partial env flags (env.scale w.nscale x y).2.1
      (env.scale w.nscale x y).2.2 v.natAbs ⟨w.nscale + 1, w.wire, w.touch⟩ k hk1
      (by rw [hlen]; exact hk) hok hfail
    simp only [wlf_handle_wheel, hin, wlf_scale_coordinates, hscale, hflags]
    simp [hpart]
  · rw [List.length_take, hevlen]
    omega

/-- C17, at the delta 300 on the vertical axis with the first send failing:
only the first of the two events of the complete run is attempted and the call
returns `FALSE`. -/
theorem wheel_partial_emission_witness :
    ((envSendFails.scale World.start.nscale 3 4).1 = true ∧
      envId.scale World.start.nscale 3 4 = envSendFails.scale World.start.nscale 3 4 ∧
      (∀ j, envId.sendOk j = true) ∧ 1 ≤ ((300 : Int).natAbs + 254) / 255 ∧
      (∀ j, j < 1 - 1 → envSendFails.sendOk (World.start.wire.length + j) = true) ∧
      envSendFails.sendOk (World.start.wire.length + (1 - 1)) = false) ∧
    ∃ evs : List WireEvent,
      evs.length = ((300 : Int).natAbs + 254) / 255 ∧
      wlf_handle_wheel envId (some instPlain) 3 4 WL_POINTER_AXIS_VERTICAL_SCROLL 300
          World.start = (some true, ⟨0 + 1, [] ++ evs, []⟩) ∧
      wlf_handle_wheel envSendFails (some instPlain) 3 4
          WL_POINTER_AXIS_VERTICAL_SCROLL 300 World.start =
        (some false, ⟨0 + 1, [] ++ evs.take 1, []⟩) ∧
      (evs.take 1).length = 1 := by
  have hok : ∀ j, j < 1 - 1 →
      envSendFails.sendOk (World.start.wire.length + j) = true := by
    intro j hj
    omega
  exact ⟨⟨rfl, rfl, fun _ => rfl, by decide, hok, rfl⟩,
    wheel_partial_emission envSendFails envId instPlain 3 4
      WL_POINTER_AXIS_VERTICAL_SCROLL 300 World.start 1 rfl (Or.inl rfl) rfl rfl
      (fun _ => rfl) (by decide) (by decide) hok rfl⟩

/-! ## Further properties of the axis frame coalescer -/

/-- The first loop leaves `handle` and `source` as they are on a buffer without
source entry. -/
theorem frame_scan_no_source (events : List (Option UwacEvent)) (hs : Bool × Nat)
    (h : ∀ cev, some cev ∈ events → cev.type ≠ UwacEventType.UWAC_EVENT_POINTER_SOURCE) :
    frame_scan events hs = hs := by
  induction events generalizing hs with
  | nil => rfl
  | cons c rest ih =>
    have hrest : ∀ cev, some cev ∈ rest →
        cev.type ≠ UwacEventType.UWAC_EVENT_POINTER_SOURCE :=
      fun cev hm => h cev (List.mem_cons_of_mem c hm)
    cases c with
    | none => simpa [frame_scan] using ih hs hrest
    | some cev =>
      have hc := h cev (List.mem_cons_self _ _)
      simpa [frame_scan, hc] using ih hs hrest

/-- The first loop on a buffer made of two parts. -/
theorem frame_scan_append (a b : List (Option UwacEvent)) (hs : Bool × Nat) :
    frame_scan (a ++ b) hs = frame_scan b (frame_scan a hs) := by
  induction a generalizing hs with
  | nil => rfl
  | cons c rest ih =>
    cases c with
    | none => simpa [frame_scan] using ih hs
    | some cev =>
      by_cases hc : cev.type = UwacEventType.UWAC_EVENT_POINTER_SOURCE
      · simpa [frame_scan, hc] using ih (true, cev.axis_source)
      · simpa [frame_scan, hc] using ih hs

/-- The first loop resolves the axis source of the last source entry of the
buffer. -/
theorem frame_scan_last (pre post : List (Option UwacEvent)) (src : UwacEvent)
    (hs : Bool × Nat) (hsrc : src.type = UwacEventType.UWAC_EVENT_POINTER_SOURCE)
    (hpost : ∀ cev, some cev ∈ post →
      cev.type ≠ UwacEventType.UWAC_EVENT_POINTER_SOURCE) :
    frame_scan (pre ++ some src :: post) hs = (true, src.axis_source) := by
  rw [frame_scan_append]
  simp only [frame_scan, hsrc, if_true]
  exact frame_scan_no_source post _ hpost

/-- The frame handler with all handles present: the replay under the resolved
source when a source entry was found, then the buffer is cleared. -/
theorem pointer_frame_eq (env : Env) (i : freerdp) (context : wlfContext)
    (e : UwacPointerFrameEvent) (w : World) (hin : i.input = true)
    (hc : i.context = some context) :
    wlf_handle_pointer_frame env (some i) (some e) w =
      ⟨(if (frame_scan context.events (false, WL_POINTER_AXIS_SOURCE_CONTINUOUS)).1 = true
          then frame_replay env i e
            (frame_scan context.events (false, WL_POINTER_AXIS_SOURCE_CONTINUOUS)).2
            context.events true w
          else (some true, w)).1,
        some (clear_events i context),
        (if (frame_scan context.events (false, WL_POINTER_AXIS_SOURCE_CONTINUOUS)).1 = true
          then frame_replay env i e
            (frame_scan context.events (false, WL_POINTER_AXIS_SOURCE_CONTINUOUS)).2
            context.events true w
          else (some true, w)).2⟩ := by
  simp [wlf_handle_pointer_frame, hin, hc, clear_events]

/-- With the input handle present every call of a run returns. -/
theorem run_wheel_calls_returns (env : Env) (i : freerdp) (hin : i.input = true)
    (calls : List WheelCall) (w : World) :
    ∀ r ∈ (run_wheel_calls env i calls w).1, r = some true ∨ r = some false := by
  induction calls generalizing w with
  | nil => simp [run_wheel_calls]
  | cons c cs ih =>
    intro r hr
    simp only [run_wheel_calls, List.mem_cons] at hr
    rcases hr with rfl | hr
    · obtain ⟨b, hb⟩ := wlf_handle_wheel_returns env i c.x c.y c.axis c.value w hin
      rw [hb]
      cases b <;> simp
    · exact ih _ r hr

/-- A run makes every call of the list: one result and one scaling call per
call. -/
theorem run_wheel_calls_length (env : Env) (i : freerdp) (hin : i.input = true)
    (calls : List WheelCall) (w : World) :
    (run_wheel_calls env i calls w).1.length = calls.length ∧
    (run_wheel_calls env i calls w).2.nscale = w.nscale + calls.length := by
  induction calls generalizing w with
  | nil => simp [run_wheel_calls]
  | cons c cs ih =>
    obtain ⟨h1, h2⟩ := ih (wlf_handle_wheel env (some i) c.x c.y c.axis c.value w).2
    have h3 := wlf_handle_wheel_nscale env i c.x c.y c.axis c.value w hin
    refine ⟨by simp [run_wheel_calls, h1], ?_⟩
    show (run_wheel_calls env i cs
      (wlf_handle_wheel env (some i) c.x c.y c.axis c.value w).2).2.nscale = _
    rw [h2, h3, List.length_cons]
    omega

/-- With the input handle present the replay is the run of its calls: it
returns `TRUE` exactly when it started with `success` and every call returned
`TRUE`, and a call that fails does not stop the calls after it. -/
theorem frame_replay_eq_run (env : Env) (i : freerdp) (hin : i.input = true)
    (ev : UwacPointerFrameEvent) (source : Nat) (events : List (Option UwacEvent))
    (success : Bool) (w : World) :
    frame_replay env i ev source events success w =
      (some (success &&
          (run_wheel_calls env i (frame_calls ev source events) w).1.all
            (fun r => r == some true)),
        (run_wheel_calls env i (frame_calls ev source events) w).2) := by
  induction events generalizing success w with
  | nil => simp [frame_replay, frame_calls, run_wheel_calls]
  | cons c rest ih =>
    cases c with
    | none => simpa [frame_replay, frame_calls] using ih success w
    | some cev =>
      simp only [frame_replay, frame_calls]
      split
      · split
        · obtain ⟨b, hb⟩ := wlf_handle_wheel_returns env i cev.x cev.y cev.axis
            (wrap32 (cev.value * 0x78)) w hin
          cases b <;> simp [hb, ih, run_wheel_calls]
        · exact ih success w
      · split
        · split
          · obtain ⟨b, hb⟩ := wlf_handle_wheel_returns env i cev.x cev.y cev.axis
              (double_to_int32 (wl_fixed_to_double cev.value * 0x78 / 10)) w hin
            cases b <;> simp [hb, ih, run_wheel_calls]
          · exact ih success w
        · exact ih success w

/-- The frame handler with all handles present is the run of the calls of the
wheel quantizer of the buffer, followed by the clearing of the buffer. -/
theorem pointer_frame_eq_run (env : Env) (i : freerdp) (context : wlfContext)
    (e : UwacPointerFrameEvent) (w : World) (hin : i.input = true)
    (hc : i.context = some context) :
    wlf_handle_pointer_frame env (some i) (some e) w =
      ⟨some ((run_wheel_calls env i (frame_wheel_calls e context.events) w).1.all
          (fun r => r == some true)),
        some (clear_events i context),
        (run_wheel_calls env i (frame_wheel_calls e context.events) w).2⟩ := by
  rw [pointer_frame_eq env i context e w hin hc]
  unfold frame_wheel_calls
  by_cases h : (frame_scan context.events (false, WL_POINTER_AXIS_SOURCE_CONTINUOUS)).1 = true
  · simp only [h, if_true]
    rw [frame_replay_eq_run env i hin]
    simp
  · simp [h, run_wheel_calls]

/-- C12: for every `wlf_handle_pointer_frame` call with instance, event, input
and context present, for every buffer and every pattern of scaling and send
results, the call returns, the axis event buffer is empty after the call, and
the call returns `FALSE` if and only if at least one call of the wheel
quantizer made during the replay returned `FALSE`; every call of the replay is
made (one result and one scaling call per call), so a failing entry does not
stop the entries after it. -/
theorem frame_clears_and_reports (env : Env) (i : freerdp) (context : wlfContext)
    (e : UwacPointerFrameEvent) (w : World) (hin : i.input = true)
    (hc : i.context = some context) :
    events_of (wlf_handle_pointer_frame env (some i) (some e) w).inst = [] ∧
    ((wlf_handle_pointer_frame env (some i) (some e) w).rc = some true ∨
      (wlf_handle_pointer_frame env (some i) (some e) w).rc = some false) ∧
    ((wlf_handle_pointer_frame env (some i) (some e) w).rc = some false ↔
      some false ∈ (run_wheel_calls env i (frame_wheel_calls e context.events) w).1) ∧
    (wlf_handle_pointer_frame env (some i) (some e) w).world =
      (run_wheel_calls env i (frame_wheel_calls e context.events) w).2 ∧
    (run_wheel_calls env i (frame_wheel_calls e context.events) w).1.length =
      (frame_wheel_calls e context.events).length ∧
    (wlf_handle_pointer_frame env (some i) (some e) w).world.nscale =
      w.nscale + (frame_wheel_calls e context.events).length := by
  have hlen := run_wheel_calls_length env i hin (frame_wheel_calls e context.events) w
  have hret := run_wheel_calls_returns env i hin (frame_wheel_calls e context.events) w
  rw [pointer_frame_eq_run env i context e w hin hc]
  refine ⟨rfl, ?_, ?_, rfl, hlen.1, hlen.2⟩
  · cases (run_wheel_calls env i (frame_wheel_calls e context.events) w).1.all
      (fun r => r == some true) <;> simp
  · simp only [Option.some.injEq]
    constructor
    · intro hall
      rw [List.all_eq_false] at hall
      obtain ⟨r, hr, hne⟩ := hall
      rcases hret r hr with rfl | rfl
      · simp at hne
      · exact hr
    · intro hmem
      rw [List.all_eq_false]
      exact ⟨some false, hmem, by simp⟩

/-- C12, at a buffer with a continuous source and two continuous axis entries,
with a scaler that always fails: both calls of the wheel quantizer are made
and fail, and the buffer is cleared. -/
theorem frame_clears_and_reports_witness :
    events_of (wlf_handle_pointer_frame envScaleFails
      (some (instWithEvents [some sourceContinuous, some axisTen, some axisTen]))
      (some frameMarker) World.start).inst = [] ∧
    (wlf_handle_pointer_frame envScaleFails
      (some (instWithEvents [some sourceContinuous, some axisTen, some axisTen]))
      (some frameMarker) World.start).rc = some false ∧
    (wlf_handle_pointer_frame envScaleFails
      (some (instWithEvents [some sourceContinuous, some axisTen, some axisTen]))
      (some frameMarker) World.start).world.nscale = 2 := by
  have h := frame_clears_and_reports envScaleFails
    (instWithEvents [some sourceContinuous, some axisTen, some axisTen])
    ⟨[some sourceContinuous, some axisTen, some axisTen], false, [], false⟩
    frameMarker World.start rfl rfl
  refine ⟨h.1, ?_, ?_⟩
  · rw [h.2.2.1]
    simp [frame_wheel_calls, frame_scan, frame_calls, run_wheel_calls, sourceContinuous,
      axisTen, wlf_handle_wheel, wlf_scale_coordinates, envScaleFails, instWithEvents,
      WL_POINTER_AXIS_SOURCE_CONTINUOUS, WL_POINTER_AXIS_SOURCE_WHEEL,
      WL_POINTER_AXIS_SOURCE_WHEEL_TILT, WL_POINTER_AXIS_SOURCE_FINGER]
  · rw [h.2.2.2.2.2]
    simp [frame_wheel_calls, frame_scan, frame_calls, sourceContinuous, axisTen,
      WL_POINTER_AXIS_SOURCE_CONTINUOUS, WL_POINTER_AXIS_SOURCE_WHEEL,
      WL_POINTER_AXIS_SOURCE_WHEEL_TILT, WL_POINTER_AXIS_SOURCE_FINGER, World.start]

/-- C13: for every buffer without source entry (any axis and discrete axis
entries, or none) and with the handles present, `wlf_handle_pointer_frame`
returns `TRUE`, makes no call to the scaler, sends no wire event and leaves the
buffer empty. -/
theorem frame_without_source (env : Env) (i : freerdp) (context : wlfContext)
    (e : UwacPointerFrameEvent) (w : World) (hin : i.input = true)
    (hc : i.context = some context)
    (hnone : ∀ cev, some cev ∈ context.events →
      cev.type ≠ UwacEventType.UWAC_EVENT_POINTER_SOURCE) :
    wlf_handle_pointer_frame env (some i) (some e) w =
      ⟨some true, some (clear_events i context), w⟩ ∧
    events_of (some (clear_events i context)) = [] := by
  refine ⟨?_, rfl⟩
  rw [pointer_frame_eq env i context e w hin hc, frame_scan_no_source _ _ hnone]
  simp

/-- C13, at a buffer holding a continuous and a discrete axis entry. -/
theorem frame_without_source_witness :
    (∀ cev, some cev ∈ [some axisTen, some discreteTwo] →
      cev.type ≠ UwacEventType.UWAC_EVENT_POINTER_SOURCE) ∧
    wlf_handle_pointer_frame envId (some (instWithEvents [some axisTen, some discreteTwo]))
        (some frameMarker) World.start =
      ⟨some true, some (instWithEvents []), World.start⟩ := by
  have hnone : ∀ cev, some cev ∈ [some axisTen, some discreteTwo] →
      cev.type ≠ UwacEventType.UWAC_EVENT_POINTER_SOURCE := by
    intro cev hm
    simp only [List.mem_cons, Option.some.injEq, List.mem_singleton, List.not_mem_nil,
      or_false] at hm
    rcases hm with rfl | rfl <;> decide
  exact ⟨hnone, (frame_without_source envId (instWithEvents [some axisTen, some discreteTwo])
    ⟨[some axisTen, some discreteTwo], false, [], false⟩ frameMarker World.start rfl rfl
    hnone).1⟩

/-- C19: for every `wlf_handle_pointer_frame` call in which the event or the
input handle is absent, whatever the context and its buffer are, the call
returns `FALSE`, sends no wire event and leaves the instance, and so the axis
event buffer, exactly as it was. -/
theorem frame_malformed_call (env : Env) (i : freerdp) (ev : Option UwacPointerFrameEvent)
    (w : World) (hbad : ev = none ∨ i.input = false) :
    wlf_handle_pointer_frame env (some i) ev w = ⟨some false, some i, w⟩ ∧
    events_of (wlf_handle_pointer_frame env (some i) ev w).inst = events_of (some i) := by
  have h : wlf_handle_pointer_frame env (some i) ev w = ⟨some false, some i, w⟩ := by
    rcases hbad with rfl | hin
    · simp [wlf_handle_pointer_frame]
    · cases ev with
      | none => simp [wlf_handle_pointer_frame]
      | some e => simp [wlf_handle_pointer_frame, hin]
  exact ⟨h, by rw [h]⟩

/-- C19, at a buffer with a continuous source and an axis entry, without the
event. -/
theorem frame_malformed_call_witness :
    ((none : Option UwacPointerFrameEvent) = none ∨
      (instWithEvents [some sourceContinuous, some axisTen]).input = false) ∧
    wlf_handle_pointer_frame envId
        (some (instWithEvents [some sourceContinuous, some axisTen])) none World.start =
      ⟨some false, some (instWithEvents [some sourceContinuous, some axisTen]),
        World.start⟩ :=
  ⟨Or.inl rfl, (frame_malformed_call envId
    (instWithEvents [some sourceContinuous, some axisTen]) none World.start (Or.inl rfl)).1⟩

/-- Under a finger or continuous source the calls of the replay are the calls
the specification describes. -/
theorem frame_calls_continuous (ev : UwacPointerFrameEvent) (source : Nat)
    (hmode : source = WL_POINTER_AXIS_SOURCE_FINGER ∨
      source = WL_POINTER_AXIS_SOURCE_CONTINUOUS)
    (events : List (Option UwacEvent)) :
    frame_calls ev source events = continuous_calls events := by
  have hnw : ¬ (source = WL_POINTER_AXIS_SOURCE_WHEEL ∨
      source = WL_POINTER_AXIS_SOURCE_WHEEL_TILT) := by
    rcases hmode with rfl | rfl <;> decide
  induction events with
  | nil => rfl
  | cons c rest ih =>
    cases c with
    | none => simpa [frame_calls, continuous_calls] using ih
    | some cev =>
      unfold continuous_calls at ih ⊢
      by_cases hty : cev.type = UwacEventType.UWAC_EVENT_POINTER_AXIS
      · simp [frame_calls, hnw, hmode, hty, ih, continuous_delta]
      · simp [frame_calls, hnw, hmode, hty, ih]

/-- A run of calls whose deltas are all zero sends nothing. -/
theorem run_wheel_calls_zero_wire (env : Env) (i : freerdp) (calls : List WheelCall)
    (w : World) (h : ∀ c ∈ calls, c.value = 0) :
    (run_wheel_calls env i calls w).2.wire = w.wire := by
  induction calls generalizing w with
  | nil => rfl
  | cons c cs ih =>
    have hc := h c (List.mem_cons_self _ _)
    have hcs : ∀ d ∈ cs, d.value = 0 := fun d hd => h d (List.mem_cons_of_mem c hd)
    show (run_wheel_calls env i cs
      (wlf_handle_wheel env (some i) c.x c.y c.axis c.value w).2).2.wire = w.wire
    rw [ih _ hcs, hc, wlf_handle_wheel_zero_wire]

/-- A raw value of magnitude at most 21 converts to the delta zero. -/
theorem small_raw_value_delta (v : Int) (h1 : -21 ≤ v) (h2 : v ≤ 21) :
    Int.tdiv (3 * v) 64 = 0 := by
  interval_cases v <;> rfl

/-- C16: for every frame end call with the handles present on a buffer whose
last source entry declares the finger or the continuous source, the calls of
the wheel quantizer are, in buffer order, one call per continuous axis entry,
on its own position and axis, with the delta `3 * v / 64` truncated toward
zero, where `v` is the raw 24.8 fixed-point value; this delta is the truncation
toward zero of `(v / 256) * 120 / 10` for every `v`; discrete-step entries and
source entries make no call; and when every continuous axis entry has
`|v| ≤ 21` the call sends no wire event. -/
theorem frame_continuous_source (env : Env) (i : freerdp) (context : wlfContext)
    (e : UwacPointerFrameEvent) (w : World) (pre post : List (Option UwacEvent))
    (src : UwacEvent) (hin : i.input = true) (hc : i.context = some context)
    (hev : context.events = pre ++ some src :: post)
    (hsrc : src.type = UwacEventType.UWAC_EVENT_POINTER_SOURCE)
    (hpost : ∀ cev, some cev ∈ post →
      cev.type ≠ UwacEventType.UWAC_EVENT_POINTER_SOURCE)
    (hmode : src.axis_source = WL_POINTER_AXIS_SOURCE_FINGER ∨
      src.axis_source = WL_POINTER_AXIS_SOURCE_CONTINUOUS) :
    frame_wheel_calls e context.events = continuous_calls context.events ∧
    wlf_handle_pointer_frame env (some i) (some e) w =
      ⟨some ((run_wheel_calls env i (continuous_calls context.events) w).1.all
          (fun r => r == some true)),
        some (clear_events i context),
        (run_wheel_calls env i (continuous_calls context.events) w).2⟩ ∧
    (∀ v : Int, double_to_int32 (wl_fixed_to_double v * 0x78 / 10) = Int.tdiv (3 * v) 64) ∧
    ((∀ cev, some cev ∈ context.events →
        cev.type = UwacEventType.UWAC_EVENT_POINTER_AXIS →
        -21 ≤ cev.value ∧ cev.value ≤ 21) →
      (wlf_handle_pointer_frame env (some i) (some e) w).world.wire = w.wire) := by
  have hscan : frame_scan context.events (false, WL_POINTER_AXIS_SOURCE_CONTINUOUS)
      = (true, src.axis_source) := by
    rw [hev]
    exact frame_scan_last pre post src _ hsrc hpost
  have hcalls : frame_wheel_calls e context.events = continuous_calls context.events := by
    unfold frame_wheel_calls
    rw [hscan]
    simp only [if_true]
    exact frame_calls_continuous e _ hmode _
  have hrun := pointer_frame_eq_run env i context e w hin hc
  rw [hcalls] at hrun
  refine ⟨hcalls, hrun, continuous_delta, ?_⟩
  intro hsmall
  rw [hrun]
  apply run_wheel_calls_zero_wire
  intro c hcm
  unfold continuous_calls at hcm
  rw [List.mem_filterMap] at hcm
  obtain ⟨o, ho, hoc⟩ := hcm
  cases o with
  | none => simp at hoc
  | some cev =>
    by_cases hty : cev.type = UwacEventType.UWAC_EVENT_POINTER_AXIS
    · simp only [hty, if_true, Option.some.injEq] at hoc
      subst hoc
      obtain ⟨h1, h2⟩ := hsmall cev ho hty
      exact small_raw_value_delta _ h1 h2
    · simp [hty] at hoc

/-- C16, at the buffer made of a finger source entry, a discrete entry and a
continuous axis entry of raw value 2560 (one call, with the delta 120), and at
the buffer made of a finger source entry and a continuous axis entry of raw
value 21 (no wire event). -/
theorem frame_continuous_source_witness :
    frame_wheel_calls frameMarker [some sourceFinger, some discreteTwo, some axisTen] =
      [⟨10, 20, WL_POINTER_AXIS_VERTICAL_SCROLL, 120⟩] ∧
    (wlf_handle_pointer_frame envId (some (instWithEvents [some sourceFinger, some axisSmall]))
      (some frameMarker) World.start).world.wire = [] := by
  constructor
  · rw [(frame_continuous_source envId
      (instWithEvents [some sourceFinger, some discreteTwo, some axisTen])
      ⟨[some sourceFinger, some discreteTwo, some axisTen], false, [], false⟩ frameMarker
      World.start [] [some discreteTwo, some axisTen] sourceFinger rfl rfl rfl rfl
      (by
        intro cev hm
        simp only [List.mem_cons, Option.some.injEq, List.mem_singleton, List.not_mem_nil,
          or_false] at hm
        rcases hm with rfl | rfl <;> decide)
      (Or.inl rfl)).1]
    decide
  · apply (frame_continuous_source envId
      (instWithEvents [some sourceFinger, some axisSmall])
      ⟨[some sourceFinger, some axisSmall], false, [], false⟩ frameMarker
      World.start [] [some axisSmall] sourceFinger rfl rfl rfl rfl
      (by
        intro cev hm
        simp only [List.mem_cons, Option.some.injEq, List.mem_singleton, List.not_mem_nil,
          or_false] at hm
        subst hm
        decide)
      (Or.inl rfl)).2.2.2
    intro cev hm hty
    simp only [List.mem_cons, Option.some.injEq, List.mem_singleton, List.not_mem_nil,
      or_false] at hm
    rcases hm with rfl | rfl
    · exact absurd hty (by decide)
    · decide

/-- The quantizer reads the instance through its input handle only. -/
theorem wlf_handle_wheel_input (env : Env) (i1 i2 : freerdp) (h : i1.input = i2.input)
    (x y axis : Nat) (v : Int) (w : World) :
    wlf_handle_wheel env (some i1) x y axis v w =
      wlf_handle_wheel env (some i2) x y axis v w := by
  simp [wlf_handle_wheel, h]

/-- The replay reads the instance through its input handle only, and does not
read the declared axis source of the buffered entries. -/
theorem frame_replay_forget (env : Env) (i1 i2 : freerdp) (h : i1.input = i2.input)
    (ev : UwacPointerFrameEvent) (source : Nat) (events : List (Option UwacEvent))
    (success : Bool) (w : World) :
    frame_replay env i1 ev source events success w =
      frame_replay env i2 ev source (events.map forget_source) success w := by
  induction events generalizing success w with
  | nil => rfl
  | cons c rest ih =>
    cases c with
    | none => simpa [frame_replay, forget_source] using ih success w
    | some cev =>
      simp only [List.map_cons, forget_source, Option.map_some', frame_replay,
        wlf_handle_wheel_input env i1 i2 h]
      repeat' split
      all_goals first | exact ih _ _ | rfl

/-- C20: for every buffer whose last source entry is `src` (whatever precedes
it, in particular one or more other source entries), with the handles present,
`wlf_handle_pointer_frame` replays every entry of the buffer, the entries
before `src` included, under the axis source of `src`; and replacing the axis
sources declared by the entries before `src` by any others changes neither the
result nor any call made. -/
theorem last_source_wins (env : Env) (i : freerdp) (context : wlfContext)
    (e : UwacPointerFrameEvent) (w : World) (pre pre2 post : List (Option UwacEvent))
    (src : UwacEvent) (hin : i.input = true) (hc : i.context = some context)
    (hev : context.events = pre ++ some src :: post)
    (hsrc : src.type = UwacEventType.UWAC_EVENT_POINTER_SOURCE)
    (hpost : ∀ cev, some cev ∈ post →
      cev.type ≠ UwacEventType.UWAC_EVENT_POINTER_SOURCE)
    (hsame : pre2.map forget_source = pre.map forget_source) :
    frame_scan context.events (false, WL_POINTER_AXIS_SOURCE_CONTINUOUS)
      = (true, src.axis_source) ∧
    wlf_handle_pointer_frame env (some i) (some e) w =
      ⟨(frame_replay env i e src.axis_source context.events true w).1,
        some (clear_events i context),
        (frame_replay env i e src.axis_source context.events true w).2⟩ ∧
    wlf_handle_pointer_frame env (some (with_events i context (pre2 ++ some src :: post)))
        (some e) w =
      wlf_handle_pointer_frame env (some i) (some e) w := by
  have hscan : frame_scan context.events (false, WL_POINTER_AXIS_SOURCE_CONTINUOUS)
      = (true, src.axis_source) := by
    rw [hev]
    exact frame_scan_last pre post src _ hsrc hpost
  have hscan2 : frame_scan (pre2 ++ some src :: post)
      (false, WL_POINTER_AXIS_SOURCE_CONTINUOUS) = (true, src.axis_source) :=
    frame_scan_last pre2 post src _ hsrc hpost
  have h1 : wlf_handle_pointer_frame env (some i) (some e) w =
      ⟨(frame_replay env i e src.axis_source context.events true w).1,
        some (clear_events i context),
        (frame_replay env i e src.axis_source context.events true w).2⟩ := by
    rw [pointer_frame_eq env i context e w hin hc, hscan]
    simp
  refine ⟨hscan, h1, ?_⟩
  rw [h1, pointer_frame_eq env (with_events i context (pre2 ++ some src :: post))
    { context with events := pre2 ++ some src :: post } e w hin rfl]
  simp only [hscan2, if_true]
  rw [frame_replay_forget env (with_events i context (pre2 ++ some src :: post)) i rfl,
    frame_replay_forget env i i rfl e src.axis_source context.events, hev]
  simp only [List.map_append, List.map_cons, hsame]
  rfl

/-- C20, at the buffer made of a wheel source entry, a continuous axis entry of
raw value 2560 and a finger source entry: the axis entry, which precedes the
finger source entry, is replayed under the finger source. -/
theorem last_source_wins_witness :
    frame_scan [some sourceWheel, some axisTen, some sourceFinger]
      (false, WL_POINTER_AXIS_SOURCE_CONTINUOUS) = (true, WL_POINTER_AXIS_SOURCE_FINGER) ∧
    wlf_handle_pointer_frame envId
        (some (with_events (instWithEvents [some sourceWheel, some axisTen, some sourceFinger])
          ⟨[some sourceWheel, some axisTen, some sourceFinger], false, [], false⟩
          ([some sourceContinuous, some axisTen] ++ some sourceFinger :: [])))
        (some frameMarker) World.start =
      wlf_handle_pointer_frame envId
        (some (instWithEvents [some sourceWheel, some axisTen, some sourceFinger]))
        (some frameMarker) World.start := by
  have h := last_source_wins envId
    (instWithEvents [some sourceWheel, some axisTen, some sourceFinger])
    ⟨[some sourceWheel, some axisTen, some sourceFinger], false, [], false⟩ frameMarker
    World.start [some sourceWheel, some axisTen] [some sourceContinuous, some axisTen] []
    sourceFinger rfl rfl rfl rfl (by simp) (by decide)
  exact ⟨h.1, h.2.2⟩

/-! ## Further properties of the touch contact tracker -/

/-- The function `scale_signed_coordinates` sends nothing and calls no touch
channel function. -/
theorem scale_signed_coordinates_trace (env : Env) (x y : Int) (w : World) :
    (scale_signed_coordinates env x y w).2.wire = w.wire ∧
    (scale_signed_coordinates env x y w).2.touch = w.touch := by
  unfold scale_signed_coordinates wlf_scale_coordinates
  by_cases h1 : x < 0 ∨ y < 0
  · simp [h1]
  · by_cases h2 : (env.scale w.nscale x.toNat y.toNat).2.1 < INT32_MAX ∧
        (env.scale w.nscale x.toNat y.toNat).2.2 < INT32_MAX
    · simp [h1, h2]
    · simp [h1, h2]

/-- The emissions of `wlf_handle_touch_motion` by the stored mode of the slot
at which the loop breaks: no touch channel call in emulated mode, no wire
event otherwise, whether the touch channel is present or not. -/
theorem touch_motion_mode (env : Env) (i : freerdp) (wlf : wlfContext) (e : UwacTouch)
    (w : World) (k : Nat) (hc : i.context = some wlf)
    (hk : first_slot (fun c => decide (c.id = e.id)) wlf.contacts = some k) :
    ((slot wlf.contacts k).emulate_mouse = true →
      (wlf_handle_touch_motion env (some i) (some e) w).world.touch = w.touch) ∧
    ((slot wlf.contacts k).emulate_mouse = false →
      (wlf_handle_touch_motion env (some i) (some e) w).world.wire = w.wire) := by
  have htr := scale_signed_coordinates_trace env e.x e.y w
  unfold wlf_handle_touch_motion
  simp only [hc, hk]
  constructor
  · intro hem
    repeat' split
    all_goals simp_all [freerdp_input_send_mouse_event]
  · intro hem
    repeat' split
    all_goals simp_all [freerdp_input_send_mouse_event]

/-- C18: for every contact table, event id and position,
`wlf_handle_touch_motion` leaves the id and the `emulate_mouse` flag of every
slot unchanged and keeps the capacity; it leaves the table unchanged when no
slot holds the event id, and otherwise changes at most the stored position of
the lowest-index slot whose id is the event id.  The emission follows the mode
stored in that slot, whether the touch channel is present or not at the motion:
in emulated mode no touch channel call is made and a move that passes scaling
sends the `PTR_FLAGS_MOVE` mouse event; in native mode no wire event is sent,
a move that passes scaling is forwarded to the channel when it is present and
the call returns `FALSE` when it is absent. -/
theorem touch_motion_frame_condition (env : Env) (i : freerdp) (wlf : wlfContext)
    (e : UwacTouch) (w : World) (hc : i.context = some wlf) :
    (∀ j, (slot (contacts_of (wlf_handle_touch_motion env (some i) (some e) w).inst) j).id
        = (slot wlf.contacts j).id ∧
      (slot (contacts_of
        (wlf_handle_touch_motion env (some i) (some e) w).inst) j).emulate_mouse
        = (slot wlf.contacts j).emulate_mouse) ∧
    (contacts_of (wlf_handle_touch_motion env (some i) (some e) w).inst).length
      = wlf.contacts.length ∧
    (first_slot (fun c => decide (c.id = e.id)) wlf.contacts = none →
      contacts_of (wlf_handle_touch_motion env (some i) (some e) w).inst = wlf.contacts) ∧
    (∀ k, first_slot (fun c => decide (c.id = e.id)) wlf.contacts = some k →
      (∀ j, j ≠ k →
        slot (contacts_of (wlf_handle_touch_motion env (some i) (some e) w).inst) j
          = slot wlf.contacts j) ∧
      ((slot wlf.contacts k).emulate_mouse = true →
        (wlf_handle_touch_motion env (some i) (some e) w).world.touch = w.touch) ∧
      ((slot wlf.contacts k).emulate_mouse = false →
        (wlf_handle_touch_motion env (some i) (some e) w).world.wire = w.wire) ∧
      (∀ sx sy : Nat,
        ¬ ((slot wlf.contacts k).pos_x = e.x ∧ (slot wlf.contacts k).pos_y = e.y) →
        0 ≤ e.x → 0 ≤ e.y → env.scale w.nscale e.x.toNat e.y.toNat = (true, sx, sy) →
        sx ≤ UINT16_MAX → sy ≤ UINT16_MAX →
        ((slot wlf.contacts k).emulate_mouse = true →
          (wlf_handle_touch_motion env (some i) (some e) w).world.wire =
            w.wire ++ [WireEvent.mouse PTR_FLAGS_MOVE sx sy]) ∧
        ((slot wlf.contacts k).emulate_mouse = false → wlf.rdpei = true →
          (wlf_handle_touch_motion env (some i) (some e) w).world.touch =
            w.touch ++ [TouchCall.TouchUpdate e.id sx sy]) ∧
        ((slot wlf.contacts k).emulate_mouse = false → wlf.rdpei = false →
          (wlf_handle_touch_motion env (some i) (some e) w).rc = some false))) := by
  have hcont := touch_motion_contacts env i wlf e w hc
  refine ⟨?_, ?_, ?_, ?_⟩
  · intro j
    rw [hcont]
    cases hk : first_slot (fun c => decide (c.id = e.id)) wlf.contacts with
    | none => exact ⟨rfl, rfl⟩
    | some k =>
      simp only []
      have hlt := (first_slot_eq_some _ _ _ hk).1
      by_cases hj : j = k
      · subst hj
        rw [slot_set_self _ _ _ hlt]
        exact ⟨rfl, rfl⟩
      · rw [slot_set_ne _ _ _ _ hj]
        exact ⟨rfl, rfl⟩
  · rw [hcont]
    cases first_slot (fun c => decide (c.id = e.id)) wlf.contacts with
    | none => rfl
    | some k => simp
  · intro hnone
    rw [hcont, hnone]
  · intro k hk
    have hmode := touch_motion_mode env i wlf e w k hc hk
    refine ⟨?_, hmode.1, hmode.2, ?_⟩
    · intro j hj
      rw [hcont, hk]
      exact slot_set_ne _ _ _ _ hj
    · intro sx sy hmoved hx hy hs hsx hsy
      have h1 : sx < INT32_MAX := by unfold UINT16_MAX at hsx; unfold INT32_MAX; omega
      have h2 : sy < INT32_MAX := by unfold UINT16_MAX at hsy; unfold INT32_MAX; omega
      have hrun := touch_motion_run env i wlf e w k sx sy hc hk hmoved hx hy hs h1 h2
        (fun _ => ⟨hsx, hsy⟩)
      rw [hrun]
      refine ⟨?_, ?_, ?_⟩
      · intro hem
        simp [hem]
      · intro hem hr
        simp [hem, hr]
      · intro hem hr
        simp [hem, hr]

/-- C18, at a contact created in emulated mode, moved after the touch channel
became present: the table keeps the id and the flag, the new position is
stored and the move is sent as a mouse event, not forwarded to the channel. -/
theorem touch_motion_frame_condition_witness :
    wlf_handle_touch_motion envId (some instEmulatedContact) (some ⟨5, 2, 3⟩)
        World.start =
      ⟨some true,
        some (set_contacts instEmulatedContact
          ⟨[], false, [⟨5, 1, 1, true⟩, ⟨0, 0, 0, false⟩], true⟩
          [⟨5, 2, 3, true⟩, ⟨0, 0, 0, false⟩]),
        ⟨1, [WireEvent.mouse PTR_FLAGS_MOVE 2 3], []⟩⟩ ∧
    (∀ j, (slot (contacts_of (wlf_handle_touch_motion envId (some instEmulatedContact)
          (some ⟨5, 2, 3⟩) World.start).inst) j).id
        = (slot (contacts_of (some instEmulatedContact)) j).id ∧
      (slot (contacts_of (wlf_handle_touch_motion envId (some instEmulatedContact)
          (some ⟨5, 2, 3⟩) World.start).inst) j).emulate_mouse
        = (slot (contacts_of (some instEmulatedContact)) j).emulate_mouse) :=
  ⟨by decide,
    (touch_motion_frame_condition envId instEmulatedContact
      ⟨[], false, [⟨5, 1, 1, true⟩, ⟨0, 0, 0, false⟩], true⟩ ⟨5, 2, 3⟩ World.start rfl).1⟩

end WlfInput
